import Mathlib

/-!
# fireworq/benchworker: a verification development

Shallow embedding of the benchmark tool's pure core:

* `runner.Result` with `Add`, the throughput and the score functions
  (`src/runner/runner.go`),
* the delivery status table `requests.inc` and `Worker.handle`
  (`src/worker/worker.go`),
* the scenario generator `NewScenario` / `NextJob` (`src/scenario/scenario.go`),
* the stopping loop of `benchmarker.optimize` (`src/main.go`).

Go's `uint` is taken at 64 bits (the amd64 target); `time.Duration` is `int64`;
the worker's counters are `uint32`.  Machine integers are natural numbers or
integers reduced explicitly modulo `2 ^ w`.  `float64` is modelled exactly
(IEEE-754 binary64, round to nearest, ties to even).
-/

namespace Benchworker

/-! ## Machine integers -/

/-- Number of values of Go's `uint` on a 64-bit target. -/
def UINT_MOD : Nat := 2 ^ 64

/-- Number of values of `uint32`. -/
def UINT32_MOD : Nat := 2 ^ 32

/-- Wrapping `uint` addition. -/
def uaddw (a b : Nat) : Nat := (a + b) % UINT_MOD

/-- Wrapping `uint` subtraction. -/
def usubw (a b : Nat) : Nat := (a + UINT_MOD - b % UINT_MOD) % UINT_MOD

/-- Reduction of an integer into the `int64` range (two's complement wrap). -/
def wrapInt64 (x : Int) : Int := (x + 2 ^ 63) % 2 ^ 64 - 2 ^ 63

/-- Conversion `int32(n)` of a `uint`: the low 32 bits read as a signed number. -/
def toInt32 (n : Nat) : Int :=
  if n % 2 ^ 32 < 2 ^ 31 then ((n % 2 ^ 32 : Nat) : Int) else ((n % 2 ^ 32 : Nat) : Int) - 2 ^ 32

/-! ## IEEE-754 binary64 -/

/-- A `float64` value: NaN, a signed infinity, or the finite number
`(-1)^neg * m * 2^e` (zero is `fin neg 0 0`). -/
inductive F64 where
  | nan : F64
  | inf (neg : Bool) : F64
  | fin (neg : Bool) (m : Nat) (e : Int) : F64
  deriving DecidableEq, Repr

namespace F64

/-- Floor of the binary logarithm by repeated halving, at most `fuel` times. -/
def ilog2Aux : Nat → Nat → Nat
  | 0, _ => 0
  | fuel + 1, n => if n < 2 then 0 else ilog2Aux fuel (n / 2) + 1

/-- Floor of the binary logarithm of `n` (`0` for `n = 0`). -/
def ilog2 (n : Nat) : Nat := ilog2Aux n n

/-- Floor of the binary logarithm of the positive rational `n / d`. -/
def expOf (n d : Nat) : Int :=
  if d * 2 ^ ilog2 n ≤ n * 2 ^ ilog2 d then (ilog2 n : Int) - ilog2 d
  else (ilog2 n : Int) - ilog2 d - 1

/-- Rounding of the exact magnitude `n / d` (`0 < d`) with sign `neg` to the nearest
binary64 value, ties to even, with gradual underflow and overflow to infinity. -/
def round (neg : Bool) (n d : Nat) : F64 :=
  if n = 0 then .fin neg 0 0 else
  let e : Int := max (expOf n d - 52) (-1074)
  let N := n * 2 ^ (-e).toNat
  let D := d * 2 ^ e.toNat
  let q0 := N / D
  let r := N % D
  let q := if 2 * r < D then q0 else if D < 2 * r then q0 + 1
           else if q0 % 2 = 0 then q0 else q0 + 1
  if q = 0 then .fin neg 0 0
  else if q = 2 ^ 53 then (if 971 < e + 1 then .inf neg else .fin neg (2 ^ 52) (e + 1))
  else if 971 < e then .inf neg else .fin neg q e

/-- Conversion `float64(n)` of an unsigned integer. -/
def ofNat (n : Nat) : F64 := round false n 1

/-- Conversion `float64(i)` of a signed integer. -/
def ofInt (i : Int) : F64 := if i < 0 then round true i.natAbs 1 else round false i.natAbs 1

/-- Sign flip. -/
def neg : F64 → F64
  | .nan => .nan
  | .inf s => .inf (!s)
  | .fin s m e => .fin (!s) m e

/-- The signed integer `±m * 2^(e - e0)` for `e0 ≤ e`. -/
def scaled (s : Bool) (m : Nat) (e e0 : Int) : Int :=
  let v : Int := (m * 2 ^ (e - e0).toNat : Nat)
  if s then -v else v

/-- Correctly rounded `x + y`. -/
def add : F64 → F64 → F64
  | .nan, _ => .nan
  | _, .nan => .nan
  | .inf s, .inf t => if s = t then .inf s else .nan
  | .inf s, .fin _ _ _ => .inf s
  | .fin _ _ _, .inf t => .inf t
  | .fin s1 m1 e1, .fin s2 m2 e2 =>
    let e0 := min e1 e2
    let sum : Int := scaled s1 m1 e1 e0 + scaled s2 m2 e2 e0
    if sum = 0 then .fin (s1 && s2) 0 0
    else round (decide (sum < 0)) (sum.natAbs * 2 ^ e0.toNat) (2 ^ (-e0).toNat)

/-- Correctly rounded `x - y`. -/
def sub (x y : F64) : F64 := add x (neg y)

/-- Correctly rounded `x * y`. -/
def mul : F64 → F64 → F64
  | .nan, _ => .nan
  | _, .nan => .nan
  | .inf s, .inf t => .inf (xor s t)
  | .inf s, .fin t m _ => if m = 0 then .nan else .inf (xor s t)
  | .fin s m _, .inf t => if m = 0 then .nan else .inf (xor s t)
  | .fin s1 m1 e1, .fin s2 m2 e2 =>
    round (xor s1 s2) (m1 * m2 * 2 ^ (e1 + e2).toNat) (2 ^ (-(e1 + e2)).toNat)

/-- Correctly rounded `x / y`, with the IEEE results for a zero divisor. -/
def div : F64 → F64 → F64
  | .nan, _ => .nan
  | _, .nan => .nan
  | .inf _, .inf _ => .nan
  | .inf s, .fin t _ _ => .inf (xor s t)
  | .fin s _ _, .inf t => .fin (xor s t) 0 0
  | .fin s1 m1 e1, .fin s2 m2 e2 =>
    if m2 = 0 then (if m1 = 0 then .nan else .inf (xor s1 s2))
    else round (xor s1 s2) (m1 * 2 ^ (e1 - e2).toNat) (m2 * 2 ^ (e2 - e1).toNat)

/-- The comparison `x < y` of Go (false as soon as one side is NaN). -/
def lt : F64 → F64 → Bool
  | .nan, _ => false
  | _, .nan => false
  | .inf s, .inf t => s && !t
  | .inf s, .fin _ _ _ => s
  | .fin _ _ _, .inf t => !t
  | .fin s1 m1 e1, .fin s2 m2 e2 =>
    decide (scaled s1 m1 e1 (min e1 e2) < scaled s2 m2 e2 (min e1 e2))

/-- The comparison `x == 0` of Go: true for both signed zeros only. -/
def isZero : F64 → Bool
  | .fin _ m _ => decide (m = 0)
  | _ => false

/-- True for the two infinities. -/
def isInf : F64 → Bool
  | .inf _ => true
  | _ => false

/-- True for NaN. -/
def isNaN : F64 → Bool
  | .nan => true
  | _ => false

/-- Finite, normal, of sign `s`, with exponent between `lo` and `hi`. -/
def NormalIn (s : Bool) (lo hi : ℤ) (x : F64) : Prop :=
  ∃ m e, x = fin s m e ∧ 2 ^ 52 ≤ m ∧ m < 2 ^ 53 ∧ lo ≤ e ∧ e ≤ hi

end F64

/-! ## `runner.Result` (src/runner/runner.go) -/

/-- The `Result` struct: four `uint` counters and two `time.Duration` (int64, nanoseconds). -/
structure Result where
  QueueTotalJobs : Nat
  QueueErrors : Nat
  QueueTime : Int
  WorkerTotalJobs : Nat
  WorkerErrors : Nat
  WorkerTime : Int
  deriving DecidableEq, Repr

/-- Every field holds a value of its machine type. -/
def Result.WF (r : Result) : Prop :=
  r.QueueTotalJobs < UINT_MOD ∧ r.QueueErrors < UINT_MOD ∧
  (-(2 : Int) ^ 63 ≤ r.QueueTime ∧ r.QueueTime < 2 ^ 63) ∧
  r.WorkerTotalJobs < UINT_MOD ∧ r.WorkerErrors < UINT_MOD ∧
  (-(2 : Int) ^ 63 ≤ r.WorkerTime ∧ r.WorkerTime < 2 ^ 63)

instance (r : Result) : Decidable r.WF := by unfold Result.WF; infer_instance

/-- The zero value `Result{}`. -/
def Result.zero : Result := ⟨0, 0, 0, 0, 0, 0⟩

/-- Go: `func (r *Result) Add(other *Result) *Result`. -/
def Result.Add (r other : Result) : Result :=
  { QueueTotalJobs := uaddw r.QueueTotalJobs other.QueueTotalJobs
    QueueErrors := uaddw r.QueueErrors other.QueueErrors
    QueueTime := wrapInt64 (r.QueueTime + other.QueueTime)
    WorkerTotalJobs := uaddw r.WorkerTotalJobs other.WorkerTotalJobs
    WorkerErrors := uaddw r.WorkerErrors other.WorkerErrors
    WorkerTime := wrapInt64 (r.WorkerTime + other.WorkerTime) }

/-- The constant `time.Second` in nanoseconds. -/
def Second : Int := 1000000000

/-- Go's `time.Duration.Seconds`:
`sec := d / Second; nsec := d % Second; return float64(sec) + float64(nsec)/1e9`
(integer division truncating toward zero). -/
def Seconds (d : Int) : F64 :=
  F64.add (F64.ofInt (Int.tdiv d Second))
    (F64.div (F64.ofInt (Int.tmod d Second)) (F64.ofNat 1000000000))

/-- Go: `func (r *Result) QueueThroughput() float64`. -/
def Result.QueueThroughput (r : Result) : F64 :=
  F64.div (F64.ofNat (usubw r.QueueTotalJobs r.QueueErrors)) (Seconds r.QueueTime)

/-- Go: `func (r *Result) WorkerThroughput() float64`. -/
def Result.WorkerThroughput (r : Result) : F64 :=
  F64.div (F64.ofNat (usubw r.WorkerTotalJobs r.WorkerErrors)) (Seconds r.WorkerTime)

/-- Go: `var queueErrorPenalty float64 = 2`. -/
def queueErrorPenalty : F64 := F64.ofNat 2

/-- Go: `var workerErrorPenalty float64 = 2`. -/
def workerErrorPenalty : F64 := F64.ofNat 2

/-- Go: `func (r *Result) QueueScore() float64`. -/
def Result.QueueScore (r : Result) : F64 :=
  F64.sub r.QueueThroughput (F64.mul queueErrorPenalty (F64.ofNat r.QueueErrors))

/-- Go: `func (r *Result) WorkerScore() float64`. -/
def Result.WorkerScore (r : Result) : F64 :=
  F64.sub r.WorkerThroughput (F64.mul workerErrorPenalty (F64.ofNat r.WorkerErrors))

/-- Go: `func (r *Result) Score() float64`. -/
def Result.Score (r : Result) : F64 :=
  F64.sub r.WorkerScore (F64.mul queueErrorPenalty (F64.ofNat r.QueueErrors))

/-! ## `scenario.Payload`, `scenario.Job`, `scenario.Scenario` (src/scenario) -/

/-- The `Payload` struct of `job.go`. -/
structure Payload where
  Id : Nat
  CycleTime : Nat
  RequestCount : Nat
  FailCount : Nat
  Value : String
  deriving DecidableEq, Repr

/-- The `Job` struct of `job.go`. -/
structure Job where
  Payload : Payload
  RunAfter : Nat
  MaxRetries : Nat
  Timeout : Nat
  deriving DecidableEq, Repr

/-- The `Scenario` struct of `scenario.go`. -/
structure Scenario where
  QueueName : String
  TotalJobs : Nat
  JobConcurrency : Nat
  MaxWorkers : Nat
  PollingInterval : Nat
  ErrorRate : Nat
  MaxPayloadSize : Nat
  MaxRetries : Nat
  MaxRunAfter : Nat
  MaxCycleTime : Nat
  deriving DecidableEq, Repr

/-- The zero value `scenario.Scenario{}`. -/
def Scenario.zero : Scenario := ⟨"", 0, 0, 0, 0, 0, 0, 0, 0, 0⟩

/-- The pseudo-random source of Go's `math/rand`, taken as a parameter: the state of a
`*rand.Rand`, the deterministic seeding `rand.New(rand.NewSource(seed))`, and `Int31n`,
which for `0 < n` returns a value in `[0, n)` together with the next state. -/
structure RandSource where
  State : Type
  NewSource : Int → State
  Int31n : State → Nat → Nat × State
  Int31n_lt : ∀ (st : State) (n : Nat), 0 < n → (Int31n st n).1 < n

/-- The `ScenarioReader` struct: the embedded `*Scenario`, the random source and `maxId`. -/
structure ScenarioReader (R : RandSource) where
  scenario : Scenario
  rand : R.State
  maxId : Nat

/-- Go: `func NewScenario(seed int64, scenario *Scenario) *ScenarioReader`. -/
def NewScenario (R : RandSource) (seed : Int) (scenario : Scenario) : ScenarioReader R :=
  ⟨scenario, R.NewSource seed, 0⟩

/-- Go: `func (s *ScenarioReader) randUintn(n uint) uint`: `uint(s.rand.Int31n(int32(n)))`;
`Int31n` panics when its argument is not positive (`none`). -/
def ScenarioReader.randUintn {R : RandSource} (s : ScenarioReader R) (n : Nat) :
    Option (Nat × ScenarioReader R) :=
  if toInt32 n ≤ 0 then none
  else some ((R.Int31n s.rand (toInt32 n).toNat).1,
             { s with rand := (R.Int31n s.rand (toInt32 n).toNat).2 })

/-- Go: `func (s *ScenarioReader) randUintMax(max uint) uint`. -/
def ScenarioReader.randUintMax {R : RandSource} (s : ScenarioReader R) (max : Nat) :
    Option (Nat × ScenarioReader R) :=
  s.randUintn (uaddw max 1)

/-- Go: `func (s *ScenarioReader) NextJob() *Job`, with the five draws in source order:
cycle time, max retries, failure trial, payload length, run-after. -/
def ScenarioReader.NextJob {R : RandSource} (s : ScenarioReader R) :
    Option (Job × ScenarioReader R) :=
  let id := uaddw s.maxId 1
  let s0 : ScenarioReader R := { s with maxId := id }
  match s0.randUintMax s0.scenario.MaxCycleTime with
  | none => none
  | some (cycleTime, s1) =>
  match s1.randUintMax s1.scenario.MaxRetries with
  | none => none
  | some (maxRetries, s2) =>
  match s2.randUintn 100 with
  | none => none
  | some (trial, s3) =>
  let failCount := if trial < s3.scenario.ErrorRate then uaddw maxRetries 1 else 0
  let requestCount := if trial < s3.scenario.ErrorRate then failCount else 1
  match s3.randUintMax s3.scenario.MaxPayloadSize with
  | none => none
  | some (len, s4) =>
  match s4.randUintMax s4.scenario.MaxRunAfter with
  | none => none
  | some (runAfter, s5) =>
    some ({ Payload := { Id := id, CycleTime := cycleTime, RequestCount := requestCount,
                         FailCount := failCount, Value := String.mk (List.replicate len '.') }
            RunAfter := runAfter
            MaxRetries := maxRetries
            Timeout := uaddw cycleTime 5 }, s5)

/-- The failure-trial draw of the next `NextJob` call: the value of `s.randUintn(100)`,
the third draw. -/
def ScenarioReader.failureTrial {R : RandSource} (s : ScenarioReader R) : Option Nat :=
  match s.randUintMax s.scenario.MaxCycleTime with
  | none => none
  | some (_, s1) =>
  match s1.randUintMax s1.scenario.MaxRetries with
  | none => none
  | some (_, s2) =>
  match s2.randUintn 100 with
  | none => none
  | some (trial, _) => some trial

/-- The arguments handed to `Int31n` by `NextJob` are all positive, so no draw panics. -/
def Scenario.drawsOk (sc : Scenario) : Prop :=
  0 < toInt32 (uaddw sc.MaxCycleTime 1) ∧ 0 < toInt32 (uaddw sc.MaxRetries 1) ∧
  0 < toInt32 (uaddw sc.MaxPayloadSize 1) ∧ 0 < toInt32 (uaddw sc.MaxRunAfter 1)

instance (sc : Scenario) : Decidable sc.drawsOk := by unfold Scenario.drawsOk; infer_instance

/-- A normal job: it never fails and is delivered once. -/
def Job.isNormal (j : Job) : Prop := j.Payload.FailCount = 0 ∧ j.Payload.RequestCount = 1

/-- A scripted-failing job: it fails `MaxRetries + 1` times and expects as many deliveries. -/
def Job.isScripted (j : Job) : Prop :=
  j.Payload.FailCount = j.MaxRetries + 1 ∧ j.Payload.RequestCount = j.Payload.FailCount

/-- Successive calls of `NextJob` on one reader, `n` of them, with the jobs in call order. -/
def ScenarioReader.nextJobs {R : RandSource} : Nat → ScenarioReader R →
    Option (List Job × ScenarioReader R)
  | 0, s => some ([], s)
  | n + 1, s =>
    match s.NextJob with
    | none => none
    | some (j, s1) =>
      match nextJobs n s1 with
      | none => none
      | some (js, s2) => some (j :: js, s2)

/-- Two readers driven in one process by an arbitrary schedule of `NextJob` calls
(`true`: the first reader is called, `false`: the second); the result lists the jobs
each reader returned, in call order. -/
def runTwo {R : RandSource} : List Bool → ScenarioReader R → ScenarioReader R →
    Option (List Job × List Job)
  | [], _, _ => some ([], [])
  | true :: sched, a, b =>
    match a.NextJob with
    | none => none
    | some (j, a1) =>
      match runTwo sched a1 b with
      | none => none
      | some (ja, jb) => some (j :: ja, jb)
  | false :: sched, a, b =>
    match b.NextJob with
    | none => none
    | some (j, b1) =>
      match runTwo sched a b1 with
      | none => none
      | some (ja, jb) => some (ja, j :: jb)

/-- A concrete random source used to evaluate the generator: a linear congruential
generator whose `Int31n` reduces the state modulo `n`. -/
def lcg : RandSource where
  State := Nat
  NewSource := fun seed => seed.natAbs % 2147483648
  Int31n := fun st n => (st % n, (st * 1103515245 + 12345) % 2147483648)
  Int31n_lt := fun st _ h => Nat.mod_lt st h

/-! ## The worker callback endpoint (src/worker/worker.go) -/

/-- The `status` struct. -/
structure status where
  expected : Nat
  requested : Nat
  failed : Nat
  deriving DecidableEq, Repr

/-- The `requests` struct: the table `m map[uint]status` (its mutex serialises the calls
of `inc`, which are modelled one after another). -/
structure requests where
  m : Nat → Option status

/-- Go: `func (r *requests) inc(job *scenario.Payload) (status, bool)`, returning the updated
table as well. -/
def requests.inc (r : requests) (job : Payload) : requests × status × Bool :=
  let st0 : status :=
    match r.m job.Id with
    | some st => st
    | none => { expected := job.RequestCount, requested := 0, failed := 0 }
  let result : Bool := !decide (st0.failed < job.FailCount)
  let st1 : status :=
    if st0.failed < job.FailCount then { st0 with failed := uaddw st0.failed 1 } else st0
  let st2 : status := { st1 with requested := uaddw st1.requested 1 }
  (⟨fun k => if k = job.Id then some st2 else r.m k⟩, st2, result)

/-- Deliveries applied one after another to `inc`; the list of the returned
`(status, bool)` pairs, in delivery order. -/
def requests.incAll : requests → List Payload → List (status × Bool)
  | _, [] => []
  | r, job :: jobs => ((r.inc job).2.1, (r.inc job).2.2) :: incAll (r.inc job).1 jobs

/-- The counters and the table of the `Worker` struct (`totalJobs`, `completedJobs`: uint32). -/
structure Worker where
  reqs : requests
  totalJobs : Nat
  completedJobs : Nat

/-- The worker built by `NewWorker`: empty table, `totalJobs: ^uint32(0)`, nothing completed. -/
def NewWorker : Worker := ⟨⟨fun _ => none⟩, UINT32_MOD - 1, 0⟩

/-- Go: `func (w *Worker) CompletedJobs() uint`. -/
def Worker.CompletedJobs (w : Worker) : Nat := w.completedJobs

/-- Go: `func (w *Worker) TotalJobs() uint`. -/
def Worker.TotalJobs (w : Worker) : Nat := w.totalJobs

/-- Go: `func (w *Worker) Errors() uint`: unsigned subtraction. -/
def Worker.Errors (w : Worker) : Nat := usubw w.TotalJobs w.CompletedJobs

/-- Go: `func (w *Worker) SetTotalJobs(totalJobs uint)`: stores `uint32(totalJobs)`. -/
def Worker.SetTotalJobs (w : Worker) (totalJobs : Nat) : Worker :=
  { w with totalJobs := totalJobs % UINT32_MOD }

/-- Go: `func (w *Worker) handle(...)` on the decoded payload: the table update, the
completed-job counter (`atomic.AddUint32`) and the status string of the response. -/
def Worker.handle (w : Worker) (payload : Payload) : Worker × String :=
  let r := w.reqs.inc payload
  let completed :=
    if r.2.1.requested = payload.RequestCount then (w.completedJobs + 1) % UINT32_MOD
    else w.completedJobs
  ({ w with reqs := r.1, completedJobs := completed },
   if r.2.2 then "success" else "failure")

/-- Deliveries handled one after another. -/
def Worker.handleAll (w : Worker) (ds : List Payload) : Worker :=
  ds.foldl (fun w d => (w.handle d).1) w

/-- A call made on a worker: a delivery or `SetTotalJobs`. -/
inductive WorkerOp where
  | deliver (p : Payload) : WorkerOp
  | setTotal (totalJobs : Nat) : WorkerOp

/-- The worker after one call. -/
def Worker.apply (w : Worker) : WorkerOp → Worker
  | .deliver p => (w.handle p).1
  | .setTotal n => w.SetTotalJobs n

/-- The worker after a sequence of calls. -/
def Worker.run (w : Worker) (ops : List WorkerOp) : Worker := ops.foldl Worker.apply w

/-- The `Result` literal returned by `runner.Run`, from the scenario's `TotalJobs`, the
queue's error count, the two measured durations and the worker at that moment. -/
def runResult (totalJobs queueErrors : Nat) (queueTime workerTime : Int) (w : Worker) : Result :=
  { QueueTotalJobs := totalJobs
    QueueErrors := queueErrors
    QueueTime := queueTime
    WorkerTotalJobs := w.TotalJobs
    WorkerErrors := w.Errors
    WorkerTime := workerTime }

/-! ## The concurrency optimizer (src/main.go) -/

/-- The local variables of `benchmarker.optimize` that live across iterations. -/
structure OptState where
  c : Nat
  s : Scenario
  max : Scenario
  bestScore : F64
  reducing : Nat
  notGrowing : Nat
  deriving DecidableEq, Repr

/-- Go: `var tries = 5`. -/
def tries : Nat := 5

/-- Go: `var epsilon float64 = 50`. -/
def epsilon : F64 := F64.ofNat 50

/-- Go: `var tooMuchReducing = 3`. -/
def tooMuchReducing : Nat := 3

/-- Go: `var tooMuchNotGrowing = 3`. -/
def tooMuchNotGrowing : Nat := 3

/-- The inner loop of `optimize`: `sum` over the `tries` trial scores of one level
(`trial i` is the value of `r.Score()` in trial `i`), then `sum / float64(tries)`. -/
def levelScore (trial : Nat → F64) : F64 :=
  F64.div ((List.range tries).foldl (fun sum i => F64.add sum (trial i)) (F64.fin false 0 0))
    (F64.ofInt tries)

/-- One iteration of the outer loop of `optimize` for the level's average `score`, up to
the `break` test; the flag tells whether the loop breaks. -/
def optimizeIter (st : OptState) (score : F64) : OptState × Bool :=
  let s : Scenario := { st.s with JobConcurrency := st.c }
  let reducing := if F64.lt score st.bestScore then st.reducing + 1 else st.reducing
  let notGrowing :=
    if F64.lt (F64.sub score st.bestScore) epsilon then st.notGrowing + 1 else st.notGrowing
  let st1 : OptState :=
    if F64.lt st.bestScore score then
      { c := st.c, s := s, max := s, bestScore := score, reducing := 0, notGrowing := 0 }
    else
      { c := st.c, s := s, max := st.max, bestScore := st.bestScore, reducing := reducing,
        notGrowing := notGrowing }
  (st1, decide (tooMuchReducing ≤ st1.reducing) || decide (tooMuchNotGrowing ≤ st1.notGrowing))

/-- The state of `optimize` on entry to its loop: `start = 10`, the copy of `s0` renamed
`benchmark0`, the zero-valued `max` and `bestScore`. -/
def optimizeInit (s0 : Scenario) : OptState :=
  { c := 10, s := { s0 with QueueName := "benchmark0" }, max := Scenario.zero,
    bestScore := F64.fin false 0 0, reducing := 0, notGrowing := 0 }

/-- The outer loop of `optimize` from level `k` on, run for at most `fuel` levels:
`scores k i` is the score of trial `i` at level `k`; `none` when the loop is still running
after `fuel` levels, otherwise the returned `max`. -/
def optimizeLoop (scores : Nat → Nat → F64) : Nat → Nat → OptState → Option Scenario
  | 0, _, _ => none
  | fuel + 1, k, st =>
    if (optimizeIter st (levelScore (scores k))).2 then
      some (optimizeIter st (levelScore (scores k))).1.max
    else
      optimizeLoop scores fuel (k + 1)
        { (optimizeIter st (levelScore (scores k))).1 with
          c := uaddw (optimizeIter st (levelScore (scores k))).1.c 10 }

/-- Go: `func (bench *benchmarker) optimize(conf, s0)` over the trial scores, for at most
`fuel` levels. -/
def optimize (scores : Nat → Nat → F64) (fuel : Nat) (s0 : Scenario) : Option Scenario :=
  optimizeLoop scores fuel 0 (optimizeInit s0)

/-- The number of levels `optimize` has run when it returns (`none`: still running after
`fuel` levels). -/
def optimizeLevels (scores : Nat → Nat → F64) : Nat → Nat → OptState → Option Nat
  | 0, _, _ => none
  | fuel + 1, k, st =>
    if (optimizeIter st (levelScore (scores k))).2 then some (k + 1)
    else
      optimizeLevels scores fuel (k + 1)
        { (optimizeIter st (levelScore (scores k))).1 with
          c := uaddw (optimizeIter st (levelScore (scores k))).1.c 10 }

/-- The scenario `main` hands to `optimize`. -/
def mainScenario : Scenario :=
  { QueueName := "", TotalJobs := 1000, JobConcurrency := 0, MaxWorkers := 50,
    PollingInterval := 100, ErrorRate := 0, MaxPayloadSize := 10, MaxRetries := 0,
    MaxRunAfter := 0, MaxCycleTime := 0 }

/-! ## The score formulas as the specification words them -/

/-- Throughput of one side as the specification words it:
`(totalJobs − errors) / elapsedSeconds`, with the true difference of the two counts. -/
def specThroughput (totalJobs errors : Nat) (elapsedSeconds : F64) : F64 :=
  F64.div (F64.ofNat (totalJobs - errors)) elapsedSeconds

/-- Score of one side as the specification words it:
`Throughput(side) − penalty × errors(side)` with penalty 2. -/
def specScore (totalJobs errors : Nat) (elapsedSeconds : F64) : F64 :=
  F64.sub (specThroughput totalJobs errors elapsedSeconds) (F64.mul (F64.ofNat 2) (F64.ofNat errors))

/-- A result with 100 jobs, 10 errors and 10 s elapsed on both sides. -/
def exampleResult : Result := ⟨100, 10, 10000000000, 100, 10, 10000000000⟩

/-! ## Example deliveries and auxiliary notions for the worker -/

/-- A scripted-failing delivery: job 1 expects 3 deliveries and fails the first 2. -/
def retryPayload : Payload := ⟨1, 0, 3, 2, ""⟩

/-- A normal delivery: job 2 expects 1 delivery and never fails. -/
def plainPayload : Payload := ⟨2, 0, 1, 0, ""⟩

/-- A run of a worker: two jobs delivered, the total set to 2, job 1 retried twice. -/
def exampleOps : List WorkerOp :=
  [.deliver retryPayload, .deliver plainPayload, .setTotal 2, .deliver retryPayload,
   .deliver retryPayload]

/-- The payloads delivered in a sequence of worker calls, in order. -/
def payloads : List WorkerOp → List Payload
  | [] => []
  | .deliver p :: ops => p :: payloads ops
  | .setTotal _ :: ops => payloads ops

/-- The number of distinct job ids among deliveries. -/
def distinctIds (ds : List Payload) : Nat := (ds.map (fun d => d.Id)).toFinset.card

/-- The `requested` count the table holds for job `j` (`0` when it has no entry). -/
def Worker.requestedOf (w : Worker) (j : Nat) : Nat :=
  match w.reqs.m j with
  | some st => st.requested
  | none => 0

/-- The job ids among `ds` that were delivered at least `R j` times. -/
def deliveredEnough (R : Nat → Nat) (ds : List Payload) : Finset Nat :=
  (ds.map (fun d => d.Id)).toFinset.filter
    (fun j => R j ≤ ds.countP (fun x => decide (x.Id = j)))

/-- The entry of job `j` after `k` deliveries of `j`, each scripted to fail `F` times. -/
def requests.AtCount (r : requests) (j F k : Nat) : Prop :=
  (k = 0 ∧ r.m j = none) ∨ ∃ E, r.m j = some ⟨E, k, min k F⟩

/-! ## Auxiliary notions for the generator -/

/-- The job returned by the `(i + 1)`-th `NextJob` call on a reader. -/
def ScenarioReader.nthJob {R : RandSource} : Nat → ScenarioReader R → Option Job
  | 0, s => s.NextJob.map Prod.fst
  | i + 1, s =>
    match s.NextJob with
    | none => none
    | some (_, s1) => nthJob i s1

/-- A scenario with failures, retries, delays and payloads. -/
def exampleScenario : Scenario :=
  { QueueName := "benchmark0", TotalJobs := 1000, JobConcurrency := 10, MaxWorkers := 50,
    PollingInterval := 100, ErrorRate := 50, MaxPayloadSize := 10, MaxRetries := 3,
    MaxRunAfter := 1, MaxCycleTime := 2 }

/-! ## Trial scores used to evaluate the optimizer -/

/-- Trial scores that grow by 10 from one level to the next: every trial of level `k`
(counted from 0) scores `10 * (k + 1)`. -/
def slowGrowth : Nat → Nat → F64 := fun k _ => F64.ofNat (10 * (k + 1))

/-- Trial scores that are all `-1`. -/
def allNegative : Nat → Nat → F64 := fun _ _ => F64.ofInt (-1)

/-! ## Theorems -/

/-! ### Rounding -/

namespace F64

theorem ilog2Aux_spec : ∀ (fuel n : Nat), 1 ≤ n → n ≤ fuel →
    2 ^ ilog2Aux fuel n ≤ n ∧ n < 2 ^ (ilog2Aux fuel n + 1) := by
  intro fuel
  induction fuel with
  | zero => intro n h1 h2; omega
  | succ f ih =>
    intro n h1 h2
    unfold ilog2Aux
    split_ifs with h
    · have : n = 1 := by omega
      subst this
      simp
    · obtain ⟨a, b⟩ := ih (n / 2) (by omega) (by omega)
      rw [Nat.pow_succ] at b
      rw [Nat.pow_succ, Nat.pow_succ, Nat.pow_succ]
      generalize 2 ^ ilog2Aux f (n / 2) = p at a b ⊢
      constructor <;> omega

theorem ilog2_spec (n : Nat) (h : 1 ≤ n) : 2 ^ ilog2 n ≤ n ∧ n < 2 ^ (ilog2 n + 1) :=
  ilog2Aux_spec n n h le_rfl

theorem expOf_spec (n d : Nat) (hn : 1 ≤ n) (hd : 1 ≤ d) :
    (2 : ℚ) ^ expOf n d ≤ (n : ℚ) / d ∧ (n : ℚ) / d < (2 : ℚ) ^ (expOf n d + 1) := by
  obtain ⟨a1, a2⟩ := ilog2_spec n hn
  obtain ⟨b1, b2⟩ := ilog2_spec d hd
  have hdq : (0 : ℚ) < d := by exact_mod_cast hd
  have hnq : (0 : ℚ) < n := by exact_mod_cast hn
  have h2 : (2 : ℚ) ≠ 0 := by norm_num
  have a1q : (2 : ℚ) ^ ilog2 n ≤ n := by exact_mod_cast a1
  have a2q : (n : ℚ) < 2 ^ (ilog2 n + 1) := by exact_mod_cast a2
  have b1q : (2 : ℚ) ^ ilog2 d ≤ d := by exact_mod_cast b1
  have b2q : (d : ℚ) < 2 ^ (ilog2 d + 1) := by exact_mod_cast b2
  have pa : (0 : ℚ) < 2 ^ ilog2 n := by positivity
  have pb : (0 : ℚ) < 2 ^ ilog2 d := by positivity
  have pb1 : (0 : ℚ) < 2 ^ (ilog2 d + 1) := by positivity
  unfold expOf
  split_ifs with h
  · have hq : (d : ℚ) * 2 ^ ilog2 n ≤ n * 2 ^ ilog2 d := by exact_mod_cast h
    constructor
    · rw [zpow_sub₀ h2, zpow_natCast, zpow_natCast, div_le_div_iff₀ pb hdq]
      linarith
    · rw [show ((ilog2 n : ℤ) - ilog2 d + 1) = ((ilog2 n + 1 : ℕ) : ℤ) - (ilog2 d : ℕ) by
        push_cast; ring, zpow_sub₀ h2, zpow_natCast, zpow_natCast, div_lt_div_iff₀ hdq pb]
      calc (n : ℚ) * 2 ^ ilog2 d ≤ n * d := by
            exact mul_le_mul_of_nonneg_left b1q hnq.le
        _ < 2 ^ (ilog2 n + 1) * d := by
            exact mul_lt_mul_of_pos_right a2q hdq
  · have hq : (n : ℚ) * 2 ^ ilog2 d < d * 2 ^ ilog2 n := by
      have := Nat.lt_of_not_le h
      exact_mod_cast this
    constructor
    · rw [show ((ilog2 n : ℤ) - ilog2 d - 1) = ((ilog2 n : ℕ) : ℤ) - ((ilog2 d + 1 : ℕ) : ℤ) by
        push_cast; ring, zpow_sub₀ h2, zpow_natCast, zpow_natCast, div_le_div_iff₀ pb1 hdq]
      calc (2 : ℚ) ^ ilog2 n * d ≤ n * d := by
            exact mul_le_mul_of_nonneg_right a1q hdq.le
        _ ≤ n * 2 ^ (ilog2 d + 1) := by
            exact mul_le_mul_of_nonneg_left b2q.le hnq.le
    · rw [show ((ilog2 n : ℤ) - ilog2 d - 1 + 1) = ((ilog2 n : ℕ) : ℤ) - ((ilog2 d : ℕ) : ℤ) by
        ring, zpow_sub₀ h2, zpow_natCast, zpow_natCast, div_lt_div_iff₀ hdq pb]
      linarith

theorem two_zpow_toNat (e : ℤ) :
    (2 : ℚ) ^ (-e).toNat / (2 : ℚ) ^ e.toNat = (2 : ℚ) ^ (-e) := by
  rcases le_total 0 e with h | h
  · obtain ⟨k, rfl⟩ := Int.eq_ofNat_of_zero_le h
    have h1 : (-(k : ℤ)).toNat = 0 := by omega
    rw [h1, Int.toNat_natCast, pow_zero, zpow_neg, zpow_natCast, one_div]
  · obtain ⟨k, hk⟩ := Int.eq_ofNat_of_zero_le (Int.neg_nonneg_of_nonpos h)
    have h1 : e.toNat = 0 := by omega
    rw [h1, hk, Int.toNat_natCast, pow_zero, zpow_natCast, div_one]

theorem round_normal (s : Bool) (n d : Nat) (hn : 1 ≤ n) (hd : 1 ≤ d) (lo hi : ℤ)
    (hlo : -1022 ≤ lo) (hhi : hi ≤ 1023)
    (h1 : (2 : ℚ) ^ lo ≤ (n : ℚ) / d) (h2 : (n : ℚ) / d < (2 : ℚ) ^ hi) :
    ∃ m e, round s n d = fin s m e ∧ 2 ^ 52 ≤ m ∧ m < 2 ^ 53 ∧ lo - 52 ≤ e ∧ e ≤ hi - 52 := by
  obtain ⟨e1, e2⟩ := expOf_spec n d hn hd
  have hE1 : lo ≤ expOf n d := by
    have h3 := lt_of_le_of_lt h1 e2
    rw [zpow_lt_zpow_iff_right₀ (by norm_num)] at h3
    omega
  have hE2 : expOf n d < hi := by
    have h3 := lt_of_le_of_lt e1 h2
    rwa [zpow_lt_zpow_iff_right₀ (by norm_num)] at h3
  have hround : round s n d =
      (let e : Int := expOf n d - 52
       let N := n * 2 ^ (-e).toNat
       let D := d * 2 ^ e.toNat
       let q0 := N / D
       let r := N % D
       let q := if 2 * r < D then q0 else if D < 2 * r then q0 + 1
                else if q0 % 2 = 0 then q0 else q0 + 1
       if q = 0 then .fin s 0 0
       else if q = 2 ^ 53 then (if 971 < e + 1 then .inf s else .fin s (2 ^ 52) (e + 1))
       else if 971 < e then .inf s else .fin s q e) := by
    unfold round
    rw [if_neg (by omega), max_eq_left (by omega)]
  rw [hround]
  clear hround
  dsimp only
  generalize expOf n d = E at *
  have hDpos : 0 < d * 2 ^ (E - 52).toNat := by positivity
  have hq : ((n * 2 ^ (-(E - 52)).toNat : ℕ) : ℚ) / ((d * 2 ^ (E - 52).toNat : ℕ) : ℚ)
      = (n : ℚ) / d * 2 ^ (52 - E) := by
    push_cast
    rw [mul_div_mul_comm, two_zpow_toNat]
    congr 2
    ring
  have hDq : (0 : ℚ) < ((d * 2 ^ (E - 52).toNat : ℕ) : ℚ) := by exact_mod_cast hDpos
  have hp : (0 : ℚ) < 2 ^ (52 - E) := by positivity
  have hlow : d * 2 ^ (E - 52).toNat * 2 ^ 52 ≤ n * 2 ^ (-(E - 52)).toNat := by
    have h3 : (2 : ℚ) ^ (52 : ℕ) ≤
        ((n * 2 ^ (-(E - 52)).toNat : ℕ) : ℚ) / ((d * 2 ^ (E - 52).toNat : ℕ) : ℚ) := by
      rw [hq]
      calc (2 : ℚ) ^ (52 : ℕ) = 2 ^ E * 2 ^ (52 - E) := by
            rw [← zpow_add₀ (by norm_num), show E + (52 - E) = (52 : ℤ) by ring]; norm_num
        _ ≤ (n : ℚ) / d * 2 ^ (52 - E) := mul_le_mul_of_nonneg_right e1 hp.le
    rw [le_div_iff₀ hDq] at h3
    have h4 : ((d * 2 ^ (E - 52).toNat * 2 ^ 52 : ℕ) : ℚ) ≤
        ((n * 2 ^ (-(E - 52)).toNat : ℕ) : ℚ) := by
      push_cast at h3 ⊢
      linarith
    exact_mod_cast h4
  have hupp : n * 2 ^ (-(E - 52)).toNat < d * 2 ^ (E - 52).toNat * 2 ^ 53 := by
    have h3 : ((n * 2 ^ (-(E - 52)).toNat : ℕ) : ℚ) / ((d * 2 ^ (E - 52).toNat : ℕ) : ℚ)
        < (2 : ℚ) ^ (53 : ℕ) := by
      rw [hq]
      calc (n : ℚ) / d * 2 ^ (52 - E) < 2 ^ (E + 1) * 2 ^ (52 - E) :=
            mul_lt_mul_of_pos_right e2 hp
        _ = (2 : ℚ) ^ (53 : ℕ) := by
            rw [← zpow_add₀ (by norm_num), show E + 1 + (52 - E) = (53 : ℤ) by ring]; norm_num
    rw [div_lt_iff₀ hDq] at h3
    have h4 : ((n * 2 ^ (-(E - 52)).toNat : ℕ) : ℚ) <
        ((d * 2 ^ (E - 52).toNat * 2 ^ 53 : ℕ) : ℚ) := by
      push_cast at h3 ⊢
      linarith
    exact_mod_cast h4
  generalize n * 2 ^ (-(E - 52)).toNat = N at *
  generalize d * 2 ^ (E - 52).toNat = D at *
  have hq0a : 2 ^ 52 ≤ N / D := (Nat.le_div_iff_mul_le hDpos).2 (by linarith)
  have hq0b : N / D < 2 ^ 53 := (Nat.div_lt_iff_lt_mul hDpos).2 (by linarith)
  generalize N / D = q0 at *
  split_ifs
  all_goals first
    | exact ⟨_, _, rfl, by omega, by omega, by omega, by omega⟩
    | (exfalso; omega)
    | contradiction

theorem ofNat_normal (k b : Nat) (h1 : 1 ≤ k) (hb : b ≤ 1023) (h2 : k < 2 ^ b) :
    NormalIn false (-52) ((b : ℤ) - 52) (ofNat k) := by
  have h := round_normal false k 1 h1 le_rfl 0 (b : ℤ) (by omega) (by omega)
    (by have : (1 : ℚ) ≤ k := by exact_mod_cast h1
        simpa using this)
    (by have : (k : ℚ) < 2 ^ b := by exact_mod_cast h2
        simpa using this)
  obtain ⟨m, e, h3, h4, h5, h6, h7⟩ := h
  exact ⟨m, e, h3, h4, h5, by omega, h7⟩

theorem ofInt_normal (i : ℤ) (b : Nat) (h0 : i ≠ 0) (hb : b ≤ 1023) (h2 : i.natAbs < 2 ^ b) :
    NormalIn (decide (i < 0)) (-52) ((b : ℤ) - 52) (ofInt i) := by
  have h1 : 1 ≤ i.natAbs := by omega
  have h := fun s => round_normal s i.natAbs 1 h1 le_rfl 0 (b : ℤ) (by omega) (by omega)
    (by have : (1 : ℚ) ≤ i.natAbs := by exact_mod_cast h1
        simpa using this)
    (by have : (i.natAbs : ℚ) < 2 ^ b := by exact_mod_cast h2
        simpa using this)
  unfold ofInt
  split_ifs with hneg
  · obtain ⟨m, e, h3, h4, h5, h6, h7⟩ := h true
    exact ⟨m, e, by simpa [hneg] using h3, h4, h5, by omega, h7⟩
  · obtain ⟨m, e, h3, h4, h5, h6, h7⟩ := h false
    exact ⟨m, e, by simpa [hneg] using h3, h4, h5, by omega, h7⟩

theorem zpow_toNat_sub (a b : ℤ) (h : b ≤ a) : ((2 : ℚ) ^ (a - b).toNat) = (2 : ℚ) ^ a / 2 ^ b := by
  rw [← zpow_sub₀ (by norm_num : (2 : ℚ) ≠ 0), ← zpow_natCast, Int.toNat_of_nonneg (by omega)]

theorem div_normal (s1 s2 : Bool) (lo1 hi1 lo2 hi2 : ℤ) (x y : F64)
    (hx : NormalIn s1 lo1 hi1 x) (hy : NormalIn s2 lo2 hi2 y)
    (hlo : -1021 ≤ lo1 - hi2) (hhi : hi1 - lo2 ≤ 1022) :
    NormalIn (xor s1 s2) (lo1 - hi2 - 53) (hi1 - lo2 - 51) (div x y) := by
  obtain ⟨m1, e1, rfl, a1, a2, a3, a4⟩ := hx
  obtain ⟨m2, e2, rfl, b1, b2, b3, b4⟩ := hy
  have hm2 : ¬ m2 = 0 := by omega
  simp only [div, if_neg hm2]
  have hval : ((m1 * 2 ^ (e1 - e2).toNat : ℕ) : ℚ) / ((m2 * 2 ^ (e2 - e1).toNat : ℕ) : ℚ)
      = (m1 : ℚ) / m2 * 2 ^ (e1 - e2) := by
    push_cast
    have := two_zpow_toNat (e2 - e1)
    rw [neg_sub] at this
    rw [mul_div_mul_comm, this]
  have m1q : (4503599627370496 : ℚ) ≤ m1 := by
    have : 4503599627370496 ≤ m1 := by omega
    exact_mod_cast this
  have m1q2 : (m1 : ℚ) < 9007199254740992 := by
    have : m1 < 9007199254740992 := by omega
    exact_mod_cast this
  have m2q : (4503599627370496 : ℚ) ≤ m2 := by
    have : 4503599627370496 ≤ m2 := by omega
    exact_mod_cast this
  have m2q2 : (m2 : ℚ) < 9007199254740992 := by
    have : m2 < 9007199254740992 := by omega
    exact_mod_cast this
  have m2pos : (0 : ℚ) < m2 := by linarith
  have hp : (0 : ℚ) < 2 ^ (e1 - e2) := by positivity
  have r1 : (1 : ℚ) / 2 ≤ (m1 : ℚ) / m2 := by
    rw [div_le_div_iff₀ (by norm_num) m2pos]
    linarith
  have r2 : (m1 : ℚ) / m2 < 2 := by
    rw [div_lt_iff₀ m2pos]
    linarith
  obtain ⟨m, e, h3, h4, h5, h6, h7⟩ := round_normal (xor s1 s2) (m1 * 2 ^ (e1 - e2).toNat)
    (m2 * 2 ^ (e2 - e1).toNat)
    (Nat.mul_pos (by omega) (by positivity)) (Nat.mul_pos (by omega) (by positivity))
    (e1 - e2 - 1) (e1 - e2 + 1) (by omega) (by omega)
    (by rw [hval, zpow_sub₀ (by norm_num), zpow_one, div_eq_mul_one_div, mul_comm]
        exact mul_le_mul_of_nonneg_right r1 hp.le)
    (by rw [hval, zpow_add₀ (by norm_num), zpow_one, mul_comm]
        exact mul_lt_mul_of_pos_left r2 hp)
  exact ⟨m, e, h3, h4, h5, by omega, by omega⟩

theorem add_fin_eq (s s1 s2 : Bool) (m1 m2 : ℕ) (e1 e2 : ℤ)
    (h1 : m1 = 0 ∨ s1 = s) (h2 : m2 = 0 ∨ s2 = s) (hpos : 0 < m1 + m2) :
    add (fin s1 m1 e1) (fin s2 m2 e2) =
      round s ((m1 * 2 ^ (e1 - min e1 e2).toNat + m2 * 2 ^ (e2 - min e1 e2).toNat)
        * 2 ^ (min e1 e2).toNat) (2 ^ (-(min e1 e2)).toNat) := by
  have hs1 : scaled s1 m1 e1 (min e1 e2) = if s then -((m1 * 2 ^ (e1 - min e1 e2).toNat : ℕ) : ℤ)
      else ((m1 * 2 ^ (e1 - min e1 e2).toNat : ℕ) : ℤ) := by
    rcases h1 with rfl | rfl
    · simp [scaled]
    · rfl
  have hs2 : scaled s2 m2 e2 (min e1 e2) = if s then -((m2 * 2 ^ (e2 - min e1 e2).toNat : ℕ) : ℤ)
      else ((m2 * 2 ^ (e2 - min e1 e2).toNat : ℕ) : ℤ) := by
    rcases h2 with rfl | rfl
    · simp [scaled]
    · rfl
  have hA : 0 < m1 * 2 ^ (e1 - min e1 e2).toNat + m2 * 2 ^ (e2 - min e1 e2).toNat := by
    have hp1 : 0 < 2 ^ (e1 - min e1 e2).toNat := by positivity
    have hp2 : 0 < 2 ^ (e2 - min e1 e2).toNat := by positivity
    rcases Nat.eq_zero_or_pos m1 with h | h
    · have : 0 < m2 := by omega
      have := Nat.mul_pos this hp2
      omega
    · have := Nat.mul_pos h hp1
      omega
  simp only [add, hs1, hs2]
  generalize m1 * 2 ^ (e1 - min e1 e2).toNat = A1 at *
  generalize m2 * 2 ^ (e2 - min e1 e2).toNat = A2 at *
  cases s
  · have h3 : ¬ ((A1 : ℤ) + A2 = 0) := by omega
    have h4 : ¬ ((A1 : ℤ) + A2 < 0) := by omega
    have h5 : ((A1 : ℤ) + A2).natAbs = A1 + A2 := by omega
    simp only [Bool.false_eq_true, if_false, if_neg h3, h5, decide_eq_false h4]
  · have h3 : ¬ (-(A1 : ℤ) + -(A2 : ℤ) = 0) := by omega
    have h4 : (-(A1 : ℤ) + -(A2 : ℤ) < 0) := by omega
    have h5 : (-(A1 : ℤ) + -(A2 : ℤ)).natAbs = A1 + A2 := by omega
    simp only [if_true, if_neg h3, h5, decide_eq_true h4]

theorem add_normal (s : Bool) (lo hi : ℤ) (x y : F64)
    (hx : NormalIn s lo hi x ∨ ∃ t, x = fin t 0 0)
    (hy : NormalIn s lo hi y ∨ ∃ t, y = fin t 0 0)
    (hne : NormalIn s lo hi x ∨ NormalIn s lo hi y)
    (hlo : -1074 ≤ lo) (hhi : hi ≤ 969) (hlo0 : lo ≤ 0) (hhi0 : 0 ≤ hi) :
    NormalIn s lo (hi + 2) (add x y) := by
  have key : ∀ (s1 s2 : Bool) (m1 m2 : ℕ) (e1 e2 : ℤ),
      (m1 = 0 ∨ (s1 = s ∧ 2 ^ 52 ≤ m1)) → (m2 = 0 ∨ (s2 = s ∧ 2 ^ 52 ≤ m2)) →
      m1 < 2 ^ 53 → m2 < 2 ^ 53 → lo ≤ e1 → e1 ≤ hi → lo ≤ e2 → e2 ≤ hi →
      (2 ^ 52 ≤ m1 ∨ 2 ^ 52 ≤ m2) →
      NormalIn s lo (hi + 2) (add (fin s1 m1 e1) (fin s2 m2 e2)) := by
    intro s1 s2 m1 m2 e1 e2 g1 g2 u1 u2 l1 l1' l2 l2' hn
    rw [add_fin_eq s s1 s2 m1 m2 e1 e2 (by tauto) (by tauto) (by omega)]
    have hmin1 : min e1 e2 ≤ e1 := min_le_left _ _
    have hmin2 : min e1 e2 ≤ e2 := min_le_right _ _
    have hval : (((m1 * 2 ^ (e1 - min e1 e2).toNat + m2 * 2 ^ (e2 - min e1 e2).toNat)
        * 2 ^ (min e1 e2).toNat : ℕ) : ℚ) / ((2 ^ (-(min e1 e2)).toNat : ℕ) : ℚ)
        = (m1 : ℚ) * 2 ^ e1 + m2 * 2 ^ e2 := by
      have h3 := two_zpow_toNat (-(min e1 e2))
      rw [neg_neg] at h3
      push_cast
      rw [mul_div_assoc, h3, zpow_toNat_sub e1 _ hmin1, zpow_toNat_sub e2 _ hmin2]
      have hp : (2 : ℚ) ^ (min e1 e2) ≠ 0 := by positivity
      field_simp
    have hm1 : (m1 : ℚ) < 9007199254740992 := by
      have : m1 < 9007199254740992 := by omega
      exact_mod_cast this
    have hm2 : (m2 : ℚ) < 9007199254740992 := by
      have : m2 < 9007199254740992 := by omega
      exact_mod_cast this
    have hm1' : (0 : ℚ) ≤ m1 := by positivity
    have hm2' : (0 : ℚ) ≤ m2 := by positivity
    have pe1 : (0 : ℚ) < 2 ^ e1 := by positivity
    have pe2 : (0 : ℚ) < 2 ^ e2 := by positivity
    have plo : (0 : ℚ) < 2 ^ lo := by positivity
    have le1 : (2 : ℚ) ^ lo ≤ 2 ^ e1 := zpow_le_zpow_right₀ (by norm_num) l1
    have le2 : (2 : ℚ) ^ lo ≤ 2 ^ e2 := zpow_le_zpow_right₀ (by norm_num) l2
    have ue1 : (2 : ℚ) ^ e1 ≤ 2 ^ hi := zpow_le_zpow_right₀ (by norm_num) l1'
    have ue2 : (2 : ℚ) ^ e2 ≤ 2 ^ hi := zpow_le_zpow_right₀ (by norm_num) l2'
    have hlow : (2 : ℚ) ^ (52 + lo) ≤ (m1 : ℚ) * 2 ^ e1 + m2 * 2 ^ e2 := by
      rw [zpow_add₀ (by norm_num)]
      rcases hn with h | h
      · have : (4503599627370496 : ℚ) ≤ m1 := by
          have : 4503599627370496 ≤ m1 := by omega
          exact_mod_cast this
        have t1 : (2 : ℚ) ^ (52 : ℤ) * 2 ^ lo ≤ m1 * 2 ^ e1 := by
          have e52 : (2 : ℚ) ^ (52 : ℤ) = 4503599627370496 := by norm_num
          rw [e52]
          exact mul_le_mul this le1 plo.le hm1'
        have t2 : (0 : ℚ) ≤ m2 * 2 ^ e2 := by positivity
        linarith
      · have : (4503599627370496 : ℚ) ≤ m2 := by
          have : 4503599627370496 ≤ m2 := by omega
          exact_mod_cast this
        have t1 : (2 : ℚ) ^ (52 : ℤ) * 2 ^ lo ≤ m2 * 2 ^ e2 := by
          have e52 : (2 : ℚ) ^ (52 : ℤ) = 4503599627370496 := by norm_num
          rw [e52]
          exact mul_le_mul this le2 plo.le hm2'
        have t2 : (0 : ℚ) ≤ m1 * 2 ^ e1 := by positivity
        linarith
    have hupp : (m1 : ℚ) * 2 ^ e1 + m2 * 2 ^ e2 < (2 : ℚ) ^ (54 + hi) := by
      rw [zpow_add₀ (by norm_num)]
      have phi : (0 : ℚ) < 2 ^ hi := by positivity
      have t1 : (m1 : ℚ) * 2 ^ e1 ≤ m1 * 2 ^ hi := mul_le_mul_of_nonneg_left ue1 hm1'
      have t2 : (m2 : ℚ) * 2 ^ e2 ≤ m2 * 2 ^ hi := mul_le_mul_of_nonneg_left ue2 hm2'
      have t3 : (m1 : ℚ) * 2 ^ hi < 9007199254740992 * 2 ^ hi := mul_lt_mul_of_pos_right hm1 phi
      have t4 : (m2 : ℚ) * 2 ^ hi < 9007199254740992 * 2 ^ hi := mul_lt_mul_of_pos_right hm2 phi
      have t5 : (2 : ℚ) ^ (54 : ℤ) = 18014398509481984 := by norm_num
      rw [t5]
      linarith
    have hnpos : 1 ≤ (m1 * 2 ^ (e1 - min e1 e2).toNat + m2 * 2 ^ (e2 - min e1 e2).toNat)
        * 2 ^ (min e1 e2).toNat := by
      apply Nat.mul_pos _ (by positivity)
      have hp1 : 0 < 2 ^ (e1 - min e1 e2).toNat := by positivity
      have hp2 : 0 < 2 ^ (e2 - min e1 e2).toNat := by positivity
      rcases hn with h | h
      · have := Nat.mul_pos (show 0 < m1 by omega) hp1
        omega
      · have := Nat.mul_pos (show 0 < m2 by omega) hp2
        omega
    obtain ⟨m, e, h3, h4, h5, h6, h7⟩ := round_normal s _ _ hnpos
      (show 1 ≤ 2 ^ (-(min e1 e2)).toNat from Nat.one_le_two_pow) (52 + lo) (54 + hi)
      (by omega) (by omega) (by rw [hval]; exact hlow) (by rw [hval]; exact hupp)
    exact ⟨m, e, h3, h4, h5, by omega, by omega⟩
  rcases hx with ⟨m1, e1, rfl, a1, a2, a3, a4⟩ | ⟨t1, rfl⟩
  · rcases hy with ⟨m2, e2, rfl, b1, b2, b3, b4⟩ | ⟨t2, rfl⟩
    · exact key s s m1 m2 e1 e2 (Or.inr ⟨rfl, a1⟩) (Or.inr ⟨rfl, b1⟩) a2 b2 a3 a4 b3 b4
        (Or.inl a1)
    · exact key s t2 m1 0 e1 0 (Or.inr ⟨rfl, a1⟩) (Or.inl rfl) a2 (by norm_num) a3 a4 hlo0 hhi0
        (Or.inl a1)
  · rcases hy with ⟨m2, e2, rfl, b1, b2, b3, b4⟩ | ⟨t2, rfl⟩
    · exact key t1 s 0 m2 0 e2 (Or.inl rfl) (Or.inr ⟨rfl, b1⟩) (by norm_num) b2 hlo0 hhi0 b3 b4
        (Or.inr b1)
    · exfalso
      rcases hne with ⟨m, e, h, a1, _⟩ | ⟨m, e, h, a1, _⟩
      · injection h with _ hm _
        omega
      · injection h with _ hm _
        omega

theorem NormalIn.mono {s : Bool} {lo hi lo1 hi1 : ℤ} {x : F64} (h : NormalIn s lo hi x)
    (h1 : lo1 ≤ lo) (h2 : hi ≤ hi1) : NormalIn s lo1 hi1 x := by
  obtain ⟨m, e, h3, h4, h5, h6, h7⟩ := h
  exact ⟨m, e, h3, h4, h5, by omega, by omega⟩

theorem round_zero (s : Bool) (d : ℕ) : round s 0 d = fin s 0 0 := by
  simp [round]

theorem div_zero_normal (t s : Bool) (e0 lo hi : ℤ) (y : F64) (hy : NormalIn s lo hi y) :
    div (fin t 0 e0) y = fin (xor t s) 0 0 := by
  obtain ⟨m, e, rfl, h4, _⟩ := hy
  have : ¬ m = 0 := by omega
  simp only [div, if_neg this, Nat.zero_mul, round_zero]

theorem ofInt_signed (s : Bool) (k b : ℕ) (hk : 1 ≤ k) (hb : b ≤ 1023) (h : k < 2 ^ b) :
    NormalIn s (-52) ((b : ℤ) - 52) (ofInt (if s then -(k : ℤ) else k)) := by
  cases s
  · have := ofInt_normal (k : ℤ) b (by omega) hb (by simpa using h)
    have h2 : decide ((k : ℤ) < 0) = false := decide_eq_false (by omega)
    rw [h2] at this
    simpa using this
  · have := ofInt_normal (-(k : ℤ)) b (by omega) hb (by simpa using h)
    have h2 : decide (-(k : ℤ) < 0) = true := decide_eq_true (by omega)
    rw [h2] at this
    simpa using this

theorem ofInt_signed_zero (s : Bool) : ofInt (if s then -((0 : ℕ) : ℤ) else (0 : ℕ)) = fin false 0 0 := by
  cases s <;> rfl

end F64

theorem tdiv_tmod_signed (s : Bool) (n : ℕ) :
    Int.tdiv (if s then -(n : ℤ) else n) Second
        = (if s then -((n / 1000000000 : ℕ) : ℤ) else ((n / 1000000000 : ℕ) : ℤ)) ∧
    Int.tmod (if s then -(n : ℤ) else n) Second
        = (if s then -((n % 1000000000 : ℕ) : ℤ) else ((n % 1000000000 : ℕ) : ℤ)) := by
  have hd : Int.tdiv (n : ℤ) Second = ((n / 1000000000 : ℕ) : ℤ) :=
    (Int.ofNat_tdiv n 1000000000).symm
  have hm : Int.tmod (n : ℤ) Second = ((n % 1000000000 : ℕ) : ℤ) :=
    (Int.ofNat_tmod n 1000000000).symm
  cases s
  · exact ⟨hd, hm⟩
  · have h1 : Int.tdiv (-(n : ℤ)) Second = -((n / 1000000000 : ℕ) : ℤ) := by
      rw [Int.neg_tdiv, hd]
    refine ⟨h1, ?_⟩
    have h2 := Int.tdiv_add_tmod (-(n : ℤ)) Second
    have h3 := Int.tdiv_add_tmod (n : ℤ) Second
    rw [h1] at h2
    rw [hd, hm] at h3
    simp only [Second, if_true] at h2 h3 ⊢
    omega

theorem Seconds_signed (s : Bool) (n : ℕ) (h1 : 1 ≤ n) (h2 : n ≤ 2 ^ 63) :
    F64.NormalIn s (-82) 14 (Seconds (if s then -(n : ℤ) else n)) := by
  obtain ⟨hd, hm⟩ := tdiv_tmod_signed s n
  unfold Seconds
  rw [hd, hm]
  have h9 : F64.NormalIn false (-23) (-23) (F64.ofNat 1000000000) :=
    ⟨1000000000 * 2 ^ 23, -23, by decide!, by norm_num, by norm_num, le_rfl, le_rfl⟩
  have hq : n / 1000000000 < 2 ^ 64 := by omega
  have hr : n % 1000000000 < 2 ^ 30 := by omega
  have hA : F64.NormalIn s (-82) 12 (F64.ofInt (if s then -((n / 1000000000 : ℕ) : ℤ)
        else ((n / 1000000000 : ℕ) : ℤ))) ∨
      ∃ t, F64.ofInt (if s then -((n / 1000000000 : ℕ) : ℤ)
        else ((n / 1000000000 : ℕ) : ℤ)) = F64.fin t 0 0 := by
    rcases Nat.eq_zero_or_pos (n / 1000000000) with h | h
    · right
      rw [h]
      exact ⟨false, F64.ofInt_signed_zero s⟩
    · left
      exact (F64.ofInt_signed s _ 64 h (by norm_num) hq).mono (by norm_num) (by norm_num)
  have hB : F64.NormalIn s (-82) 12 (F64.div (F64.ofInt (if s then -((n % 1000000000 : ℕ) : ℤ)
        else ((n % 1000000000 : ℕ) : ℤ))) (F64.ofNat 1000000000)) ∨
      ∃ t, F64.div (F64.ofInt (if s then -((n % 1000000000 : ℕ) : ℤ)
        else ((n % 1000000000 : ℕ) : ℤ))) (F64.ofNat 1000000000) = F64.fin t 0 0 := by
    rcases Nat.eq_zero_or_pos (n % 1000000000) with h | h
    · right
      rw [h, F64.ofInt_signed_zero, F64.div_zero_normal false false 0 _ _ _ h9]
      exact ⟨_, rfl⟩
    · left
      have := F64.div_normal s false _ _ _ _ _ _
        (F64.ofInt_signed s _ 30 h (by norm_num) hr) h9 (by norm_num) (by norm_num)
      rw [Bool.xor_false] at this
      exact this.mono (by norm_num) (by norm_num)
  have hne : F64.NormalIn s (-82) 12 (F64.ofInt (if s then -((n / 1000000000 : ℕ) : ℤ)
        else ((n / 1000000000 : ℕ) : ℤ))) ∨
      F64.NormalIn s (-82) 12 (F64.div (F64.ofInt (if s then -((n % 1000000000 : ℕ) : ℤ)
        else ((n % 1000000000 : ℕ) : ℤ))) (F64.ofNat 1000000000)) := by
    rcases Nat.eq_zero_or_pos (n / 1000000000) with h | h
    · right
      have h' : 0 < n % 1000000000 := by omega
      have := F64.div_normal s false _ _ _ _ _ _
        (F64.ofInt_signed s _ 30 h' (by norm_num) hr) h9 (by norm_num) (by norm_num)
      rw [Bool.xor_false] at this
      exact this.mono (by norm_num) (by norm_num)
    · left
      exact (F64.ofInt_signed s _ 64 h (by norm_num) hq).mono (by norm_num) (by norm_num)
  exact F64.add_normal s (-82) 12 _ _ hA hB hne (by norm_num) (by norm_num) (by norm_num)
    (by norm_num)

theorem Seconds_normal (d : ℤ) (h0 : d ≠ 0) (h1 : -(2 : ℤ) ^ 63 ≤ d) (h2 : d < 2 ^ 63) :
    F64.NormalIn (decide (d < 0)) (-82) 14 (Seconds d) := by
  have h := Seconds_signed (decide (d < 0)) d.natAbs (by omega) (by omega)
  have h3 : (if decide (d < 0) = true then -(d.natAbs : ℤ) else d.natAbs) = d := by
    by_cases hd : d < 0
    · simp only [hd, decide_True, if_true]; omega
    · simp only [hd, decide_False, Bool.false_eq_true, if_false]; omega
  rwa [h3] at h

theorem Seconds_zero : Seconds 0 = F64.fin false 0 0 := by decide!



/-! ### Result.Add -/

theorem uaddw_assoc (a b c : Nat) : uaddw (uaddw a b) c = uaddw a (uaddw b c) := by
  unfold uaddw UINT_MOD
  omega

theorem uaddw_comm (a b : Nat) : uaddw a b = uaddw b a := by
  unfold uaddw
  rw [Nat.add_comm]

theorem uaddw_zero (a : Nat) (h : a < UINT_MOD) : uaddw a 0 = a := by
  unfold uaddw
  simpa using Nat.mod_eq_of_lt h

theorem wrapInt64_assoc (a b c : Int) :
    wrapInt64 (wrapInt64 (a + b) + c) = wrapInt64 (a + wrapInt64 (b + c)) := by
  unfold wrapInt64
  omega

theorem wrapInt64_id (a : Int) (h1 : -(2 : Int) ^ 63 ≤ a) (h2 : a < 2 ^ 63) :
    wrapInt64 a = a := by
  unfold wrapInt64
  omega

/-- C1: `Result.Add` is associative and commutative on all Results, and the all-zero
Result is a two-sided identity on every Result whose fields are machine values
(`uint` counters, `int64` durations, both with wrap-around addition). -/
theorem Result_Add_commutative_monoid (a b c : Result) (ha : a.WF) :
    (a.Add b).Add c = a.Add (b.Add c) ∧ a.Add b = b.Add a ∧
    a.Add Result.zero = a ∧ Result.zero.Add a = a := by
  obtain ⟨h1, h2, ⟨h3, h3'⟩, h4, h5, h6, h6'⟩ := ha
  refine ⟨?_, ?_, ?_, ?_⟩
  · simp only [Result.Add, uaddw_assoc, wrapInt64_assoc]
  · simp only [Result.Add, uaddw_comm a.QueueTotalJobs, uaddw_comm a.QueueErrors,
      uaddw_comm a.WorkerTotalJobs, uaddw_comm a.WorkerErrors, Int.add_comm a.QueueTime,
      Int.add_comm a.WorkerTime]
  · cases a
    simp only [Result.Add, Result.zero, Int.add_zero] at *
    simp only [uaddw_zero _ h1, uaddw_zero _ h2, uaddw_zero _ h4, uaddw_zero _ h5,
      wrapInt64_id _ h3 h3', wrapInt64_id _ h6 h6']
  · cases a
    simp only [Result.Add, Result.zero, Int.zero_add] at *
    simp only [uaddw_comm 0, uaddw_zero _ h1, uaddw_zero _ h2, uaddw_zero _ h4, uaddw_zero _ h5,
      wrapInt64_id _ h3 h3', wrapInt64_id _ h6 h6']

theorem Result_Add_commutative_monoid_witness :
    (Result.mk 18446744073709551615 3 (2 ^ 63 - 1) 7 2 (-5)).WF ∧
    (((Result.mk 18446744073709551615 3 (2 ^ 63 - 1) 7 2 (-5)).Add ⟨1, 2, 1, 4, 5, 6⟩).Add
        ⟨9, 9, 9, 9, 9, 9⟩ =
      (Result.mk 18446744073709551615 3 (2 ^ 63 - 1) 7 2 (-5)).Add
        ((Result.mk 1 2 1 4 5 6).Add ⟨9, 9, 9, 9, 9, 9⟩) ∧
     (Result.mk 18446744073709551615 3 (2 ^ 63 - 1) 7 2 (-5)).Add ⟨1, 2, 1, 4, 5, 6⟩ =
      (Result.mk 1 2 1 4 5 6).Add (Result.mk 18446744073709551615 3 (2 ^ 63 - 1) 7 2 (-5)) ∧
     (Result.mk 18446744073709551615 3 (2 ^ 63 - 1) 7 2 (-5)).Add Result.zero =
      Result.mk 18446744073709551615 3 (2 ^ 63 - 1) 7 2 (-5) ∧
     Result.zero.Add (Result.mk 18446744073709551615 3 (2 ^ 63 - 1) 7 2 (-5)) =
      Result.mk 18446744073709551615 3 (2 ^ 63 - 1) 7 2 (-5)) :=
  ⟨by decide, Result_Add_commutative_monoid _ _ _ (by decide)⟩

/-! ### Scores -/

theorem usubw_of_le (a b : Nat) (ha : a < UINT_MOD) (h : b ≤ a) : usubw a b = a - b := by
  unfold usubw UINT_MOD at *
  omega

/-- C3: for a Result with non-zero elapsed times and errors ≤ totalJobs on each side,
`QueueScore` and `WorkerScore` are `(totalJobs − errors) / elapsedSeconds − 2 × errors`
with the true difference of the counts, and `Score` is `WorkerScore − 2 × QueueErrors`
(all operations being those of float64). -/
theorem score_formulas (r : Result) (hwf : r.WF)
    (_hqt : r.QueueTime ≠ 0) (_hwt : r.WorkerTime ≠ 0)
    (hq : r.QueueErrors ≤ r.QueueTotalJobs) (hw : r.WorkerErrors ≤ r.WorkerTotalJobs) :
    r.QueueScore = specScore r.QueueTotalJobs r.QueueErrors (Seconds r.QueueTime) ∧
    r.WorkerScore = specScore r.WorkerTotalJobs r.WorkerErrors (Seconds r.WorkerTime) ∧
    r.Score = F64.sub r.WorkerScore (F64.mul (F64.ofNat 2) (F64.ofNat r.QueueErrors)) := by
  obtain ⟨h1, _, _, h4, _, _⟩ := hwf
  refine ⟨?_, ?_, rfl⟩
  · simp only [Result.QueueScore, Result.QueueThroughput, specScore, specThroughput,
      queueErrorPenalty, usubw_of_le _ _ h1 hq]
  · simp only [Result.WorkerScore, Result.WorkerThroughput, specScore, specThroughput,
      workerErrorPenalty, usubw_of_le _ _ h4 hw]

theorem score_formulas_witness :
    exampleResult.QueueThroughput = F64.fin false (9 * 2 ^ 49) (-49) ∧
    exampleResult.QueueScore = F64.fin true (11 * 2 ^ 49) (-49) ∧
    exampleResult.WorkerThroughput = F64.fin false (9 * 2 ^ 49) (-49) ∧
    exampleResult.WorkerScore = F64.fin true (11 * 2 ^ 49) (-49) ∧
    (exampleResult.QueueScore =
        specScore exampleResult.QueueTotalJobs exampleResult.QueueErrors
          (Seconds exampleResult.QueueTime) ∧
      exampleResult.WorkerScore =
        specScore exampleResult.WorkerTotalJobs exampleResult.WorkerErrors
          (Seconds exampleResult.WorkerTime) ∧
      exampleResult.Score =
        F64.sub exampleResult.WorkerScore
          (F64.mul (F64.ofNat 2) (F64.ofNat exampleResult.QueueErrors))) :=
  ⟨by decide!, by decide!, by decide!, by decide!,
   score_formulas exampleResult (by decide) (by decide) (by decide) (by decide) (by decide)⟩

/-! ### Throughput at zero elapsed time -/

theorem throughput_at_zero_time (k : ℕ) (hk : k < UINT_MOD) :
    F64.div (F64.ofNat k) (Seconds 0) = if k = 0 then F64.nan else F64.inf false := by
  rw [Seconds_zero]
  split_ifs with h
  · subst h
    rfl
  · obtain ⟨m, e, h3, h4, _⟩ := F64.ofNat_normal k 64 (by omega) (by norm_num)
      (by unfold UINT_MOD at hk; exact hk)
    have hm : ¬ m = 0 := by omega
    rw [h3]
    simp [F64.div, hm]

theorem throughput_of_zero_jobs (d : ℤ) (h0 : d ≠ 0) (h1 : -(2 : ℤ) ^ 63 ≤ d) (h2 : d < 2 ^ 63) :
    (F64.div (F64.ofNat 0) (Seconds d)).isZero = true := by
  have h := Seconds_normal d h0 h1 h2
  have h3 : F64.ofNat 0 = F64.fin false 0 0 := rfl
  rw [h3, F64.div_zero_normal false _ 0 _ _ _ h]
  rfl

/-- C2 (as the code behaves): for a Result with machine-valued fields and errors ≤ totalJobs
on each side, a side's throughput is 0 when its totalJobs is 0 and its elapsed time is not 0;
when the elapsed time is 0 the division is carried out unguarded and the throughput is NaN if
totalJobs = errors and +Inf otherwise. -/
theorem throughput_zero_cases (r : Result) (hwf : r.WF)
    (hq : r.QueueErrors ≤ r.QueueTotalJobs) (hw : r.WorkerErrors ≤ r.WorkerTotalJobs) :
    (r.QueueTime ≠ 0 → r.QueueTotalJobs = 0 → r.QueueThroughput.isZero = true) ∧
    (r.QueueTime = 0 →
      r.QueueThroughput = if r.QueueTotalJobs = r.QueueErrors then F64.nan else F64.inf false) ∧
    (r.WorkerTime ≠ 0 → r.WorkerTotalJobs = 0 → r.WorkerThroughput.isZero = true) ∧
    (r.WorkerTime = 0 →
      r.WorkerThroughput =
        if r.WorkerTotalJobs = r.WorkerErrors then F64.nan else F64.inf false) := by
  obtain ⟨h1, _, ⟨h3, h3'⟩, h4, _, h6, h6'⟩ := hwf
  have hsubq := usubw_of_le _ _ h1 hq
  have hsubw := usubw_of_le _ _ h4 hw
  refine ⟨?_, ?_, ?_, ?_⟩
  · intro ht h0
    unfold Result.QueueThroughput
    rw [hsubq, h0, Nat.zero_sub]
    exact throughput_of_zero_jobs _ ht h3 h3'
  · intro ht
    unfold Result.QueueThroughput
    rw [hsubq, ht, throughput_at_zero_time _ (by unfold UINT_MOD at *; omega)]
    by_cases h : r.QueueTotalJobs = r.QueueErrors
    · rw [if_pos h, if_pos (by omega)]
    · rw [if_neg h, if_neg (by omega)]
  · intro ht h0
    unfold Result.WorkerThroughput
    rw [hsubw, h0, Nat.zero_sub]
    exact throughput_of_zero_jobs _ ht h6 h6'
  · intro ht
    unfold Result.WorkerThroughput
    rw [hsubw, ht, throughput_at_zero_time _ (by unfold UINT_MOD at *; omega)]
    by_cases h : r.WorkerTotalJobs = r.WorkerErrors
    · rw [if_pos h, if_pos (by omega)]
    · rw [if_neg h, if_neg (by omega)]

theorem throughput_zero_cases_witness :
    (Result.mk 0 0 5 7 2 0).WF ∧
    (Result.mk 0 0 5 7 2 0).QueueThroughput.isZero = true ∧
    (Result.mk 0 0 5 7 2 0).WorkerThroughput = F64.inf false :=
  ⟨by decide,
   (throughput_zero_cases (Result.mk 0 0 5 7 2 0) (by decide) (by decide) (by decide)).1
     (by decide) rfl,
   (throughput_zero_cases (Result.mk 0 0 5 7 2 0) (by decide) (by decide) (by decide)).2.2.2
     rfl⟩

/-- C2 fails as stated: with one job, no error and a zero elapsed time the throughput is
+Inf on both sides, and on the all-zero Result (totalJobs = 0 and elapsed time = 0) it is
NaN; neither is 0. -/
theorem throughput_zero_counterexample :
    (Result.mk 1 0 0 1 0 0).WF ∧ (Result.mk 1 0 0 1 0 0).QueueTime = 0 ∧
    (Result.mk 1 0 0 1 0 0).QueueThroughput = F64.inf false ∧
    (Result.mk 1 0 0 1 0 0).QueueThroughput.isZero = false ∧
    (Result.mk 1 0 0 1 0 0).WorkerTime = 0 ∧
    (Result.mk 1 0 0 1 0 0).WorkerThroughput = F64.inf false ∧
    (Result.mk 1 0 0 1 0 0).WorkerThroughput.isZero = false ∧
    Result.zero.QueueTotalJobs = 0 ∧ Result.zero.QueueThroughput = F64.nan ∧
    Result.zero.QueueThroughput.isZero = false ∧
    Result.zero.WorkerTotalJobs = 0 ∧ Result.zero.WorkerThroughput = F64.nan ∧
    Result.zero.WorkerThroughput.isZero = false := by
  refine ⟨by decide, rfl, ?_, ?_, rfl, ?_, ?_, rfl, ?_, ?_, rfl, ?_, ?_⟩ <;> decide!

/-! ### The delivery status table -/

theorem inc_same (r : requests) (d : Payload) (F k : Nat) (h : r.AtCount d.Id F k)
    (hF : d.FailCount = F) (hk : k + 1 < UINT_MOD) :
    (r.inc d).1.AtCount d.Id F (k + 1) ∧ (r.inc d).2.1.requested = k + 1 ∧
    (r.inc d).2.1.failed = min (k + 1) F ∧ ((r.inc d).2.2 = false ↔ k + 1 ≤ F) := by
  have hw : ∀ a, a + 1 < UINT_MOD → uaddw a 1 = a + 1 := by
    intro a ha
    unfold uaddw
    exact Nat.mod_eq_of_lt ha
  rcases h with ⟨rfl, hm⟩ | ⟨E, hm⟩
  · by_cases hlt : 0 < d.FailCount
    · simp only [requests.inc, requests.AtCount, hm, hlt, if_true, ← hF, hw 0 hk]
      refine ⟨Or.inr ⟨d.RequestCount, ?_⟩, ?_, ?_, ?_⟩
      all_goals try simp
      all_goals omega
    · simp only [requests.inc, requests.AtCount, hm, hlt, if_false, ← hF, hw 0 hk]
      refine ⟨Or.inr ⟨d.RequestCount, ?_⟩, ?_, ?_, ?_⟩
      all_goals try simp
      all_goals omega
  · by_cases hlt : min k F < d.FailCount
    · have h1 : min k F + 1 < UINT_MOD := by omega
      simp only [requests.inc, requests.AtCount, hm, hlt, if_true, hw k hk, hw _ h1]
      refine ⟨Or.inr ⟨E, ?_⟩, ?_, ?_, ?_⟩
      all_goals try simp
      all_goals omega
    · simp only [requests.inc, requests.AtCount, hm, hlt, if_false, hw k hk]
      refine ⟨Or.inr ⟨E, ?_⟩, ?_, ?_, ?_⟩
      all_goals try simp
      all_goals omega

theorem inc_other (r : requests) (d : Payload) (j F k : Nat) (h : r.AtCount j F k)
    (hj : d.Id ≠ j) : (r.inc d).1.AtCount j F k := by
  have : (r.inc d).1.m j = r.m j := by
    simp only [requests.inc]
    rw [if_neg (fun h => hj h.symm)]
  unfold requests.AtCount at *
  rw [this]
  exact h

theorem incAll_kth (j F : Nat) : ∀ (ds : List Payload) (r : requests) (k0 : Nat),
    r.AtCount j F k0 → (∀ d ∈ ds, d.Id = j → d.FailCount = F) →
    k0 + ds.length < UINT_MOD →
    ∀ (i : Nat) (d : Payload), ds[i]? = some d → d.Id = j →
    ∃ st ok, (r.incAll ds)[i]? = some (st, ok) ∧
      st.requested = k0 + (ds.take (i + 1)).countP (fun x => decide (x.Id = j)) ∧
      st.failed = min (k0 + (ds.take (i + 1)).countP (fun x => decide (x.Id = j))) F ∧
      (ok = false ↔ k0 + (ds.take (i + 1)).countP (fun x => decide (x.Id = j)) ≤ F) := by
  intro ds
  induction ds with
  | nil =>
    intro r k0 _ _ _ i d hi
    simp at hi
  | cons a ds ih =>
    intro r k0 hat hF hlen i d hi hd
    have hlen2 : k0 + 1 + ds.length < UINT_MOD := by
      simp only [List.length_cons] at hlen
      omega
    have hF2 : ∀ d ∈ ds, d.Id = j → d.FailCount = F :=
      fun d hd => hF d (List.mem_cons_of_mem _ hd)
    by_cases ha : a.Id = j
    · subst ha
      obtain ⟨s1, s2, s3, s4⟩ := inc_same r a F k0 hat (hF a (List.mem_cons_self _ _) rfl)
        (by omega)
      cases i with
      | zero =>
        refine ⟨(r.inc a).2.1, (r.inc a).2.2, by simp [requests.incAll], ?_, ?_, ?_⟩
        · simpa using s2
        · simpa using s3
        · simpa using s4
      | succ i =>
        have hi2 : ds[i]? = some d := by simpa using hi
        obtain ⟨st, ok, g1, g2, g3, g4⟩ := ih (r.inc a).1 (k0 + 1) s1 hF2 hlen2 i d hi2 hd
        refine ⟨st, ok, by simpa [requests.incAll] using g1, ?_, ?_, ?_⟩
        · rw [g2, List.take_succ_cons, List.countP_cons_of_pos _ _ (by simp)]
          omega
        · rw [g3, List.take_succ_cons, List.countP_cons_of_pos _ _ (by simp)]
          congr 1
          omega
        · rw [g4, List.take_succ_cons, List.countP_cons_of_pos _ _ (by simp)]
          omega
    · have hat2 := inc_other r a j F k0 hat ha
      cases i with
      | zero =>
        exfalso
        have : a = d := by simpa using hi
        exact ha (this ▸ hd)
      | succ i =>
        have hi2 : ds[i]? = some d := by simpa using hi
        obtain ⟨st, ok, g1, g2, g3, g4⟩ := ih (r.inc a).1 k0 hat2 hF2 (by omega) i d hi2 hd
        refine ⟨st, ok, by simpa [requests.incAll] using g1, ?_, ?_, ?_⟩
        · rw [g2, List.take_succ_cons, List.countP_cons_of_neg _ _ (by simpa using ha)]
        · rw [g3, List.take_succ_cons, List.countP_cons_of_neg _ _ (by simpa using ha)]
        · rw [g4, List.take_succ_cons, List.countP_cons_of_neg _ _ (by simpa using ha)]

/-- C4: deliveries applied one after another to `inc` on the empty table, fewer than `2^64`
of them and arbitrarily interleaved across job ids: if all deliveries of the job id of the
`i`-th delivery carry the fail count `F` and `k` is the number of deliveries of that id up
to and including the `i`-th, then `inc` returns for it a status with `requested = k` and
`failed = min k F`, and it classifies the delivery as failure exactly when `k ≤ F`. -/
theorem inc_classifies_kth_delivery (ds : List Payload) (i F : Nat) (d : Payload)
    (hlen : ds.length < UINT_MOD) (hi : ds[i]? = some d)
    (hF : ∀ x ∈ ds, x.Id = d.Id → x.FailCount = F) :
    ∃ st ok, (requests.incAll ⟨fun _ => none⟩ ds)[i]? = some (st, ok) ∧
      st.requested = (ds.take (i + 1)).countP (fun x => decide (x.Id = d.Id)) ∧
      st.failed = min ((ds.take (i + 1)).countP (fun x => decide (x.Id = d.Id))) F ∧
      (ok = false ↔ (ds.take (i + 1)).countP (fun x => decide (x.Id = d.Id)) ≤ F) := by
  have h := incAll_kth d.Id F ds ⟨fun _ => none⟩ 0 (Or.inl ⟨rfl, rfl⟩) hF (by omega) i d hi rfl
  simpa using h

theorem inc_classifies_kth_delivery_witness :
    (requests.incAll ⟨fun _ => none⟩ [retryPayload, retryPayload, retryPayload]).map Prod.snd
      = [false, false, true] ∧
    ∃ st ok, (requests.incAll ⟨fun _ => none⟩
        [retryPayload, plainPayload, retryPayload, retryPayload])[3]? = some (st, ok) ∧
      st.requested = ([retryPayload, plainPayload, retryPayload, retryPayload].take (3 + 1)).countP
        (fun x => decide (x.Id = retryPayload.Id)) ∧
      st.failed = min (([retryPayload, plainPayload, retryPayload, retryPayload].take
        (3 + 1)).countP (fun x => decide (x.Id = retryPayload.Id))) 2 ∧
      (ok = false ↔ ([retryPayload, plainPayload, retryPayload, retryPayload].take
        (3 + 1)).countP (fun x => decide (x.Id = retryPayload.Id)) ≤ 2) :=
  ⟨by decide,
   inc_classifies_kth_delivery [retryPayload, plainPayload, retryPayload, retryPayload] 3 2
     retryPayload (by decide) rfl (by decide)⟩

/-! ### Completion counting -/

theorem handleAll_append (w : Worker) (ds : List Payload) (d : Payload) :
    w.handleAll (ds ++ [d]) = ((w.handleAll ds).handle d).1 := by
  simp [Worker.handleAll, List.foldl_append]

theorem handleAll_cons (w : Worker) (ds : List Payload) (d : Payload) :
    w.handleAll (d :: ds) = (w.handle d).1.handleAll ds := rfl

theorem handle_expected (w : Worker) (d : Payload) (j : Nat) (st : status)
    (h : (w.handle d).1.reqs.m j = some st) :
    (∃ st0, w.reqs.m j = some st0 ∧ st0.expected = st.expected) ∨
    (w.reqs.m j = none ∧ d.Id = j ∧ d.RequestCount = st.expected) := by
  simp only [Worker.handle, requests.inc] at h
  by_cases hj : j = d.Id
  · subst hj
    rw [if_pos rfl] at h
    cases hm : w.reqs.m d.Id with
    | none =>
      right
      rw [hm] at h
      refine ⟨rfl, rfl, ?_⟩
      injection h with h
      rw [← h]
      split_ifs <;> rfl
    | some st0 =>
      left
      rw [hm] at h
      refine ⟨st0, rfl, ?_⟩
      injection h with h
      rw [← h]
      split_ifs <;> rfl
  · rw [if_neg hj] at h
    exact Or.inl ⟨st, h, rfl⟩

theorem handleAll_expected : ∀ (ds : List Payload) (w : Worker) (j : Nat) (st : status),
    (w.handleAll ds).reqs.m j = some st →
    (∃ st0, w.reqs.m j = some st0 ∧ st0.expected = st.expected) ∨
    (∃ x ∈ ds, x.Id = j ∧ x.RequestCount = st.expected) := by
  intro ds
  induction ds with
  | nil =>
    intro w j st h
    exact Or.inl ⟨st, h, rfl⟩
  | cons d ds ih =>
    intro w j st h
    rw [handleAll_cons] at h
    rcases ih _ j st h with ⟨st1, h1, h2⟩ | ⟨x, hx, h1, h2⟩
    · rcases handle_expected w d j st1 h1 with ⟨st0, g1, g2⟩ | ⟨_, g2, g3⟩
      · exact Or.inl ⟨st0, g1, g2.trans h2⟩
      · exact Or.inr ⟨d, List.mem_cons_self _ _, g2, g3.trans h2⟩
    · exact Or.inr ⟨x, List.mem_cons_of_mem _ hx, h1, h2⟩

theorem inc_expected (r : requests) (d : Payload) :
    (r.inc d).2.1.expected =
      match r.m d.Id with
      | some st0 => st0.expected
      | none => d.RequestCount := by
  simp only [requests.inc]
  cases r.m d.Id <;> (simp only []; split_ifs <;> rfl)

theorem handleAll_completed_le : ∀ (ds : List Payload) (w : Worker),
    (w.handleAll ds).completedJobs ≤ w.completedJobs + ds.length := by
  intro ds
  induction ds with
  | nil => intro w; exact Nat.le_refl _
  | cons d ds ih =>
    intro w
    rw [handleAll_cons]
    have h1 := ih (w.handle d).1
    have h2 : (w.handle d).1.completedJobs ≤ w.completedJobs + 1 := by
      simp only [Worker.handle]
      split_ifs
      · exact Nat.mod_le _ _
      · omega
    simp only [List.length_cons]
    omega

/-- C5 (as the code behaves): deliveries handled one after another by `handle` on a fresh
worker; for a delivery whose job id carries the same request count in all its deliveries,
the completed-job counter is incremented (by 1 modulo `2^32`, without wrap-around while
fewer than `2^32` deliveries are handled) exactly when, after `inc`, the status of that id
has `requested = expected`; otherwise the counter is unchanged. -/
theorem handle_counts_completion (ds : List Payload) (i : Nat) (d : Payload)
    (hi : ds[i]? = some d)
    (hR : ∀ x ∈ ds, x.Id = d.Id → x.RequestCount = d.RequestCount) :
    (((NewWorker.handleAll (ds.take i)).reqs.inc d).2.1.requested =
        ((NewWorker.handleAll (ds.take i)).reqs.inc d).2.1.expected →
      ((NewWorker.handleAll (ds.take i)).handle d).1.completedJobs =
        ((NewWorker.handleAll (ds.take i)).completedJobs + 1) % UINT32_MOD) ∧
    (((NewWorker.handleAll (ds.take i)).reqs.inc d).2.1.requested ≠
        ((NewWorker.handleAll (ds.take i)).reqs.inc d).2.1.expected →
      ((NewWorker.handleAll (ds.take i)).handle d).1.completedJobs =
        (NewWorker.handleAll (ds.take i)).completedJobs) ∧
    (ds.length < UINT32_MOD →
      (NewWorker.handleAll (ds.take i)).completedJobs + 1 < UINT32_MOD) := by
  have hexp : ((NewWorker.handleAll (ds.take i)).reqs.inc d).2.1.expected = d.RequestCount := by
    rw [inc_expected]
    cases hm : (NewWorker.handleAll (ds.take i)).reqs.m d.Id with
    | none => rfl
    | some st0 =>
      rcases handleAll_expected _ _ _ _ hm with ⟨st1, h1, _⟩ | ⟨x, hx, h1, h2⟩
      · simp [NewWorker] at h1
      · simp only []
        rw [← h2]
        exact hR x (List.mem_of_mem_take hx) h1
  refine ⟨?_, ?_, ?_⟩
  · intro h
    rw [hexp] at h
    simp only [Worker.handle, if_pos h]
  · intro h
    rw [hexp] at h
    simp only [Worker.handle, if_neg h]
  · intro hlen
    have h1 := handleAll_completed_le (ds.take i) NewWorker
    have h2 : i < ds.length := by
      by_contra hc
      rw [List.getElem?_eq_none (by omega)] at hi
      exact absurd hi (by simp)
    have h3 : (ds.take i).length = i := by
      rw [List.length_take]
      omega
    simp only [NewWorker] at h1 ⊢
    omega

theorem handle_counts_completion_witness :
    (NewWorker.handleAll [retryPayload]).completedJobs = 0 ∧
    (NewWorker.handleAll [retryPayload, retryPayload]).completedJobs = 0 ∧
    (NewWorker.handleAll [retryPayload, retryPayload, retryPayload]).completedJobs = 1 ∧
    (NewWorker.handleAll [plainPayload]).completedJobs = 1 ∧
    (NewWorker.handle plainPayload).2 = "success" ∧
    ((NewWorker.handleAll ([retryPayload, plainPayload, retryPayload, retryPayload].take
        3)).handle retryPayload).1.completedJobs =
      ((NewWorker.handleAll ([retryPayload, plainPayload, retryPayload, retryPayload].take
        3)).completedJobs + 1) % UINT32_MOD :=
  ⟨by decide, by decide, by decide, by decide, by decide,
   (handle_counts_completion [retryPayload, plainPayload, retryPayload, retryPayload] 3
     retryPayload rfl (by decide)).1 (by decide)⟩

/-- C5 fails as stated: job 1 is delivered first with request count 2 and then with request
count 5; after the second delivery its status has `requested = expected = 2`, yet `handle`
compares `requested` with the request count of the delivered payload and leaves the
completed-job counter unchanged. -/
theorem handle_counts_counterexample :
    (((NewWorker.handle ⟨1, 0, 2, 0, ""⟩).1.reqs.inc ⟨1, 0, 5, 0, ""⟩).2.1.requested =
      ((NewWorker.handle ⟨1, 0, 2, 0, ""⟩).1.reqs.inc ⟨1, 0, 5, 0, ""⟩).2.1.expected) ∧
    ((NewWorker.handle ⟨1, 0, 2, 0, ""⟩).1.handle ⟨1, 0, 5, 0, ""⟩).1.completedJobs =
      (NewWorker.handle ⟨1, 0, 2, 0, ""⟩).1.completedJobs := by
  decide

/-! ### Completed jobs against total jobs -/

theorem run_eq_handleAll : ∀ (ops : List WorkerOp) (w v : Worker),
    w.reqs = v.reqs → w.completedJobs = v.completedJobs →
    (w.run ops).reqs = (v.handleAll (payloads ops)).reqs ∧
    (w.run ops).completedJobs = (v.handleAll (payloads ops)).completedJobs := by
  intro ops
  induction ops with
  | nil => intro w v h1 h2; exact ⟨h1, h2⟩
  | cons op ops ih =>
    intro w v h1 h2
    cases op with
    | deliver p =>
      exact ih (w.handle p).1 (v.handle p).1 (by simp only [Worker.handle, h1])
        (by simp only [Worker.handle, h1, h2])
    | setTotal n => exact ih (w.SetTotalJobs n) v h1 h2

theorem run_totalJobs_lt : ∀ (ops : List WorkerOp) (w : Worker), w.totalJobs < UINT32_MOD →
    (w.run ops).totalJobs < UINT32_MOD := by
  intro ops
  induction ops with
  | nil => intro w h; exact h
  | cons op ops ih =>
    intro w h
    cases op with
    | deliver p => exact ih (w.handle p).1 h
    | setTotal n => exact ih (w.SetTotalJobs n) (Nat.mod_lt _ (by decide))

theorem requestedOf_handle (w : Worker) (d : Payload) (j : Nat) :
    (w.handle d).1.requestedOf j =
      if d.Id = j then uaddw (w.requestedOf j) 1 else w.requestedOf j := by
  by_cases hj : d.Id = j
  · subst hj
    simp only [Worker.requestedOf, Worker.handle, requests.inc, if_true]
    cases w.reqs.m d.Id <;> (simp only []; split_ifs <;> rfl)
  · simp only [Worker.requestedOf, Worker.handle, requests.inc, if_neg hj,
      if_neg (fun (h : j = d.Id) => hj h.symm)]

theorem inc_requested (w : Worker) (d : Payload) :
    (w.reqs.inc d).2.1.requested = uaddw (w.requestedOf d.Id) 1 := by
  simp only [Worker.requestedOf, requests.inc]
  cases w.reqs.m d.Id <;> (simp only []; split_ifs <;> rfl)

theorem requestedOf_handleAll (j : Nat) : ∀ (ds : List Payload) (w : Worker),
    w.requestedOf j + ds.length < UINT_MOD →
    (w.handleAll ds).requestedOf j = w.requestedOf j + ds.countP (fun x => decide (x.Id = j)) := by
  intro ds
  induction ds with
  | nil => intro w _; rfl
  | cons d ds ih =>
    intro w h
    simp only [List.length_cons] at h
    rw [handleAll_cons]
    have h1 := requestedOf_handle w d j
    by_cases hj : d.Id = j
    · rw [if_pos hj] at h1
      have h2 : uaddw (w.requestedOf j) 1 = w.requestedOf j + 1 := by
        unfold uaddw
        exact Nat.mod_eq_of_lt (by omega)
      rw [ih _ (by omega), h1, h2, List.countP_cons_of_pos _ _ (by simpa using hj)]
      omega
    · rw [if_neg hj] at h1
      rw [ih _ (by omega), h1, List.countP_cons_of_neg _ _ (by simpa using hj)]

theorem completed_le_deliveredEnough (R : Nat → Nat) : ∀ (ds : List Payload),
    (∀ x ∈ ds, x.RequestCount = R x.Id) → ds.length < UINT_MOD →
    (NewWorker.handleAll ds).completedJobs ≤ (deliveredEnough R ds).card := by
  intro ds
  induction ds using List.reverseRecOn with
  | nil => intro _ _; exact Nat.zero_le _
  | append_singleton ds d ih =>
    intro hR hlen
    simp only [List.length_append, List.length_singleton] at hlen
    have ih1 := ih (fun x hx => hR x (List.mem_append_left _ hx)) (by omega)
    have hsub : deliveredEnough R ds ⊆ deliveredEnough R (ds ++ [d]) := by
      intro j hj
      simp only [deliveredEnough, Finset.mem_filter, List.mem_toFinset, List.map_append,
        List.mem_append, List.countP_append] at hj ⊢
      exact ⟨Or.inl hj.1, by omega⟩
    rw [handleAll_append]
    by_cases hc : ((NewWorker.handleAll ds).reqs.inc d).2.1.requested = d.RequestCount
    · have hreq := requestedOf_handleAll d.Id ds NewWorker (by
        simp only [Worker.requestedOf, NewWorker]
        omega)
      have h0 : NewWorker.requestedOf d.Id = 0 := rfl
      rw [inc_requested, hreq, h0, Nat.zero_add, hR d (by simp)] at hc
      have hw : uaddw (ds.countP (fun x => decide (x.Id = d.Id))) 1 =
          ds.countP (fun x => decide (x.Id = d.Id)) + 1 := by
        unfold uaddw
        have := List.countP_le_length (fun x => decide (x.Id = d.Id)) (l := ds)
        exact Nat.mod_eq_of_lt (by omega)
      rw [hw] at hc
      have hnot : d.Id ∉ deliveredEnough R ds := by
        simp only [deliveredEnough, Finset.mem_filter, not_and]
        intro _
        omega
      have hin : d.Id ∈ deliveredEnough R (ds ++ [d]) := by
        simp only [deliveredEnough, Finset.mem_filter, List.mem_toFinset, List.map_append,
          List.mem_append, List.countP_append]
        refine ⟨Or.inr (by simp), ?_⟩
        simp
        omega
      have hcard : (deliveredEnough R ds).card + 1 ≤ (deliveredEnough R (ds ++ [d])).card := by
        rw [← Finset.card_insert_of_not_mem hnot]
        apply Finset.card_le_card
        intro j hj
        rcases Finset.mem_insert.1 hj with rfl | hj
        · exact hin
        · exact hsub hj
      have hstep : ((NewWorker.handleAll ds).handle d).1.completedJobs ≤
          (NewWorker.handleAll ds).completedJobs + 1 := by
        simp only [Worker.handle]
        split_ifs
        · exact Nat.mod_le _ _
        · omega
      omega
    · have hstep : ((NewWorker.handleAll ds).handle d).1.completedJobs =
          (NewWorker.handleAll ds).completedJobs := by
        simp only [Worker.handle, if_neg hc]
      rw [hstep]
      exact le_trans ih1 (Finset.card_le_card hsub)

theorem deliveredEnough_card_le (R : Nat → Nat) (ds : List Payload) :
    (deliveredEnough R ds).card ≤ distinctIds ds :=
  Finset.card_filter_le _ _

/-- C10 (as the code behaves): for a worker driven from its initial state by deliveries and
`SetTotalJobs` calls, with fewer than `2^64` deliveries and every job id carrying one request
count `R id` in all its deliveries, `CompletedJobs()` is at most the number of distinct job
ids delivered; when that number is at most `TotalJobs()`, `CompletedJobs() ≤ TotalJobs()`,
`Errors()` is the true difference and at most `TotalJobs()`, and the Result built by
`runner.Run` has `WorkerErrors ≤ WorkerTotalJobs`. -/
theorem worker_errors_bounded (ops : List WorkerOp) (R : Nat → Nat)
    (hR : ∀ p ∈ payloads ops, p.RequestCount = R p.Id)
    (hlen : (payloads ops).length < UINT_MOD)
    (htot : distinctIds (payloads ops) ≤ (NewWorker.run ops).TotalJobs) :
    (NewWorker.run ops).CompletedJobs ≤ distinctIds (payloads ops) ∧
    (NewWorker.run ops).CompletedJobs ≤ (NewWorker.run ops).TotalJobs ∧
    (NewWorker.run ops).Errors =
      (NewWorker.run ops).TotalJobs - (NewWorker.run ops).CompletedJobs ∧
    (NewWorker.run ops).Errors ≤ (NewWorker.run ops).TotalJobs ∧
    ∀ (totalJobs queueErrors : Nat) (queueTime workerTime : Int),
      (runResult totalJobs queueErrors queueTime workerTime (NewWorker.run ops)).WorkerErrors ≤
      (runResult totalJobs queueErrors queueTime workerTime (NewWorker.run ops)).WorkerTotalJobs := by
  have h1 : (NewWorker.run ops).CompletedJobs ≤ distinctIds (payloads ops) := by
    unfold Worker.CompletedJobs
    rw [(run_eq_handleAll ops NewWorker NewWorker rfl rfl).2]
    exact le_trans (completed_le_deliveredEnough R _ hR hlen) (deliveredEnough_card_le R _)
  have h2 : (NewWorker.run ops).TotalJobs < UINT_MOD := by
    have := run_totalJobs_lt ops NewWorker (by decide)
    unfold Worker.TotalJobs
    unfold UINT32_MOD at this
    unfold UINT_MOD
    omega
  have h3 : (NewWorker.run ops).CompletedJobs ≤ (NewWorker.run ops).TotalJobs := le_trans h1 htot
  have h4 : (NewWorker.run ops).Errors =
      (NewWorker.run ops).TotalJobs - (NewWorker.run ops).CompletedJobs := by
    unfold Worker.Errors
    exact usubw_of_le _ _ h2 h3
  refine ⟨h1, h3, h4, by omega, ?_⟩
  intro _ _ _ _
  simp only [runResult]
  omega

theorem worker_errors_bounded_witness :
    (NewWorker.run exampleOps).CompletedJobs = 2 ∧ (NewWorker.run exampleOps).TotalJobs = 2 ∧
    (NewWorker.run exampleOps).Errors = 0 ∧
    (NewWorker.run exampleOps).CompletedJobs ≤ (NewWorker.run exampleOps).TotalJobs :=
  ⟨by decide, by decide, by decide,
   (worker_errors_bounded exampleOps (fun j => if j = 1 then 3 else 1) (by decide) (by decide)
     (by decide)).2.1⟩

/-- C10 fails as stated: after `SetTotalJobs(0)` and one delivery of a job that expects one
delivery, `CompletedJobs()` is 1 and `TotalJobs()` is 0, `Errors()` wraps around to
`2^64 − 1`, and the Result of `runner.Run` has `WorkerErrors > WorkerTotalJobs`. -/
theorem worker_errors_counterexample :
    (NewWorker.run [.setTotal 0, .deliver plainPayload]).CompletedJobs = 1 ∧
    (NewWorker.run [.setTotal 0, .deliver plainPayload]).TotalJobs = 0 ∧
    (NewWorker.run [.setTotal 0, .deliver plainPayload]).Errors = 18446744073709551615 ∧
    (runResult 1 1 0 0 (NewWorker.run [.setTotal 0, .deliver plainPayload])).WorkerTotalJobs <
      (runResult 1 1 0 0 (NewWorker.run [.setTotal 0, .deliver plainPayload])).WorkerErrors := by
  decide

/-! ### The scenario generator -/

theorem toInt32_pos (n : Nat) (h : 0 < toInt32 n) :
    (toInt32 n).toNat = n % 2 ^ 32 ∧ 0 < n % 2 ^ 32 ∧ n % 2 ^ 32 < 2 ^ 31 := by
  unfold toInt32 at *
  split_ifs at h ⊢ with h1
  · omega
  · omega

theorem randUintn_some {R : RandSource} (s s1 : ScenarioReader R) (n v : Nat)
    (h : s.randUintn n = some (v, s1)) :
    0 < toInt32 n ∧ v < n % 2 ^ 32 ∧ n % 2 ^ 32 < 2 ^ 31 ∧
    v = (R.Int31n s.rand (toInt32 n).toNat).1 ∧
    s1 = { s with rand := (R.Int31n s.rand (toInt32 n).toNat).2 } := by
  unfold ScenarioReader.randUintn at h
  split_ifs at h with h1
  have hpos : 0 < toInt32 n := by omega
  obtain ⟨a, b, c⟩ := toInt32_pos n hpos
  injection h with h
  injection h with h2 h3
  refine ⟨hpos, ?_, c, h2.symm, h3.symm⟩
  rw [← h2, ← a]
  exact R.Int31n_lt _ _ (by omega)

theorem randUintn_ok {R : RandSource} (s : ScenarioReader R) (n : Nat) (h : 0 < toInt32 n) :
    s.randUintn n = some ((R.Int31n s.rand (toInt32 n).toNat).1,
      { s with rand := (R.Int31n s.rand (toInt32 n).toNat).2 }) := by
  unfold ScenarioReader.randUintn
  rw [if_neg (by omega)]

theorem randUintMax_some {R : RandSource} (s s1 : ScenarioReader R) (max v : Nat)
    (h : s.randUintMax max = some (v, s1)) :
    0 < toInt32 (uaddw max 1) ∧ v ≤ max ∧ v + 1 < 2 ^ 31 ∧
    s1.scenario = s.scenario ∧ s1.maxId = s.maxId ∧
    v = (R.Int31n s.rand (toInt32 (uaddw max 1)).toNat).1 ∧
    s1.rand = (R.Int31n s.rand (toInt32 (uaddw max 1)).toNat).2 := by
  unfold ScenarioReader.randUintMax at h
  obtain ⟨h1, h2, h3, h4, h5⟩ := randUintn_some s s1 _ v h
  subst h5
  refine ⟨h1, ?_, by omega, rfl, rfl, h4, rfl⟩
  unfold uaddw UINT_MOD at h2
  omega

theorem NextJob_some {R : RandSource} (s s' : ScenarioReader R) (job : Job)
    (h : s.NextJob = some (job, s')) :
    ∃ c s1 m s2 t s3 l s4 a,
      ({ s with maxId := uaddw s.maxId 1 } : ScenarioReader R).randUintMax
        s.scenario.MaxCycleTime = some (c, s1) ∧
      s1.randUintMax s1.scenario.MaxRetries = some (m, s2) ∧
      s2.randUintn 100 = some (t, s3) ∧
      s3.randUintMax s3.scenario.MaxPayloadSize = some (l, s4) ∧
      s4.randUintMax s4.scenario.MaxRunAfter = some (a, s') ∧
      job = { Payload := { Id := uaddw s.maxId 1, CycleTime := c,
                           RequestCount := if t < s3.scenario.ErrorRate then
                             (if t < s3.scenario.ErrorRate then uaddw m 1 else 0) else 1,
                           FailCount := if t < s3.scenario.ErrorRate then uaddw m 1 else 0,
                           Value := String.mk (List.replicate l '.') }
              RunAfter := a
              MaxRetries := m
              Timeout := uaddw c 5 } := by
  unfold ScenarioReader.NextJob at h
  simp only [] at h
  split at h
  · exact absurd h (by simp)
  · rename_i c s1 h1
    split at h
    · exact absurd h (by simp)
    · rename_i m s2 h2
      split at h
      · exact absurd h (by simp)
      · rename_i t s3 h3
        split at h
        · exact absurd h (by simp)
        · rename_i l s4 h4
          split at h
          · exact absurd h (by simp)
          · rename_i a s5 h5
            injection h with h
            injection h with hj hs
            subst hs
            exact ⟨c, s1, m, s2, t, s3, l, s4, a, h1, h2, h3, h4, h5, hj.symm⟩

theorem NextJob_ok {R : RandSource} (s : ScenarioReader R) (h : s.scenario.drawsOk) :
    ∃ job s', s.NextJob = some (job, s') := by
  obtain ⟨h1, h2, h3, h4⟩ := h
  have h100 : (0 : ℤ) < toInt32 100 := by decide
  simp only [ScenarioReader.NextJob, ScenarioReader.randUintMax, randUintn_ok _ _ h1,
    randUintn_ok _ _ h2, randUintn_ok _ _ h3, randUintn_ok _ _ h4, randUintn_ok _ _ h100]
  exact ⟨_, _, rfl⟩

theorem failureTrial_ok {R : RandSource} (s : ScenarioReader R)
    (h1 : 0 < toInt32 (uaddw s.scenario.MaxCycleTime 1))
    (h2 : 0 < toInt32 (uaddw s.scenario.MaxRetries 1)) :
    s.failureTrial = some (R.Int31n (R.Int31n (R.Int31n s.rand
      (toInt32 (uaddw s.scenario.MaxCycleTime 1)).toNat).2
      (toInt32 (uaddw s.scenario.MaxRetries 1)).toNat).2 (toInt32 100).toNat).1 := by
  have h100 : (0 : ℤ) < toInt32 100 := by decide
  simp only [ScenarioReader.failureTrial, ScenarioReader.randUintMax, randUintn_ok _ _ h1,
    randUintn_ok _ _ h2, randUintn_ok _ _ h100]

/-- C6: every job returned by `NextJob` is either normal (`FailCount = 0`,
`RequestCount = 1`) or scripted-failing (`FailCount = MaxRetries + 1`,
`RequestCount = FailCount`), with `MaxRetries` at most the scenario's; it is
scripted-failing exactly when the failure-trial draw, a value below 100, is below
`ErrorRate`, so `ErrorRate = 0` gives normal jobs only and `ErrorRate ≥ 100` scripted-failing
jobs only.  `NextJob` does return a job whenever its draws have positive bounds. -/
theorem NextJob_job_kinds {R : RandSource} (s : ScenarioReader R) :
    (s.scenario.drawsOk → ∃ job s', s.NextJob = some (job, s')) ∧
    ∀ job s', s.NextJob = some (job, s') →
      (job.isNormal ∨ job.isScripted) ∧ job.MaxRetries ≤ s.scenario.MaxRetries ∧
      (∃ t, s.failureTrial = some t ∧ t < 100 ∧
        (job.isScripted ↔ t < s.scenario.ErrorRate) ∧
        (job.isNormal ↔ ¬ t < s.scenario.ErrorRate)) ∧
      (s.scenario.ErrorRate = 0 → job.isNormal) ∧
      (100 ≤ s.scenario.ErrorRate → job.isScripted) := by
  refine ⟨NextJob_ok s, ?_⟩
  intro job s' h
  obtain ⟨c, s1, m, s2, t, s3, l, s4, a, h1, h2, h3, h4, h5, hj⟩ := NextJob_some s s' job h
  obtain ⟨p1, _, _, q1, _, _, r1⟩ := randUintMax_some _ _ _ _ h1
  obtain ⟨p2, m2, m3, q2, _, v2, r2⟩ := randUintMax_some _ _ _ _ h2
  obtain ⟨_, t1, _, v3, q3⟩ := randUintn_some _ _ _ _ h3
  have hsc : s3.scenario = s.scenario := by
    rw [q3]
    exact q2.trans q1
  have hm : uaddw m 1 = m + 1 := by
    unfold uaddw UINT_MOD
    omega
  have ht : t < 100 := by omega
  have hft : s.failureTrial = some t := by
    rw [failureTrial_ok s p1 (by rw [← q1]; exact p2), v3, r2, r1, q1]
  have hsplit : (t < s.scenario.ErrorRate → job.isScripted ∧ ¬ job.isNormal) ∧
      (¬ t < s.scenario.ErrorRate → job.isNormal ∧ ¬ job.isScripted) := by
    rw [hj, hsc, hm]
    constructor
    · intro hlt
      simp only [Job.isScripted, Job.isNormal, if_pos hlt]
      exact ⟨by simp, by omega⟩
    · intro hlt
      simp only [Job.isScripted, Job.isNormal, if_neg hlt]
      exact ⟨by simp, by omega⟩
  have hmax : job.MaxRetries ≤ s.scenario.MaxRetries := by
    rw [hj]
    simp only []
    rw [← q1]
    exact m2
  refine ⟨?_, hmax, ⟨t, hft, ht, ?_, ?_⟩, ?_, ?_⟩
  · by_cases hlt : t < s.scenario.ErrorRate
    · exact Or.inr (hsplit.1 hlt).1
    · exact Or.inl (hsplit.2 hlt).1
  · constructor
    · intro hs
      by_contra hlt
      exact (hsplit.2 hlt).2 hs
    · exact fun hlt => (hsplit.1 hlt).1
  · constructor
    · intro hn hlt
      exact (hsplit.1 hlt).2 hn
    · exact fun hlt => (hsplit.2 hlt).1
  · intro h0
    exact (hsplit.2 (by omega)).1
  · intro h100
    exact (hsplit.1 (by omega)).1

theorem NextJob_job_kinds_witness :
    exampleScenario.drawsOk ∧
    (NewScenario lcg 3141592 exampleScenario).failureTrial = some 66 ∧
    (NewScenario lcg 3141592 exampleScenario).NextJob.map Prod.fst =
      some ⟨⟨1, 1, 1, 0, "."⟩, 0, 1, 6⟩ ∧
    ∃ job s', (NewScenario lcg 3141592 exampleScenario).NextJob = some (job, s') :=
  ⟨by decide, by decide, by decide,
   (NextJob_job_kinds (NewScenario lcg 3141592 exampleScenario)).1 (by decide)⟩

theorem NextJob_facts {R : RandSource} (s s' : ScenarioReader R) (job : Job)
    (h : s.NextJob = some (job, s')) :
    job.Payload.Id = uaddw s.maxId 1 ∧ s'.maxId = uaddw s.maxId 1 ∧
    s'.scenario = s.scenario ∧ job.Timeout = job.Payload.CycleTime + 5 := by
  obtain ⟨c, s1, m, s2, t, s3, l, s4, a, h1, h2, h3, h4, h5, hj⟩ := NextJob_some s s' job h
  obtain ⟨_, _, c3, q1, i1, _, _⟩ := randUintMax_some _ _ _ _ h1
  obtain ⟨_, _, _, q2, i2, _, _⟩ := randUintMax_some _ _ _ _ h2
  obtain ⟨_, _, _, _, q3⟩ := randUintn_some _ _ _ _ h3
  obtain ⟨_, _, _, q4, i4, _, _⟩ := randUintMax_some _ _ _ _ h4
  obtain ⟨_, _, _, q5, i5, _, _⟩ := randUintMax_some _ _ _ _ h5
  have hc : uaddw c 5 = c + 5 := by
    unfold uaddw UINT_MOD
    omega
  subst q3
  refine ⟨by rw [hj], ?_, ?_, by rw [hj]; exact hc⟩
  · rw [i5, i4]
    exact i2.trans i1
  · rw [q5, q4]
    exact q2.trans q1

theorem nextJobs_nth {R : RandSource} : ∀ (n : Nat) (s s' : ScenarioReader R) (js : List Job),
    s.nextJobs n = some (js, s') → ∀ i j, js[i]? = some j → s.nthJob i = some j := by
  intro n
  induction n with
  | zero =>
    intro s s' js h i j hi
    simp only [ScenarioReader.nextJobs, Option.some.injEq, Prod.mk.injEq] at h
    rw [← h.1] at hi
    simp at hi
  | succ n ih =>
    intro s s' js h i j hi
    unfold ScenarioReader.nextJobs at h
    split at h
    · exact absurd h (by simp)
    · rename_i j0 s1 h0
      split at h
      · exact absurd h (by simp)
      · rename_i js1 s2 h1
        injection h with h
        injection h with hjs _
        subst hjs
        cases i with
        | zero =>
          simp only [List.getElem?_cons_zero, Option.some.injEq] at hi
          subst hi
          simp only [ScenarioReader.nthJob, h0, Option.map_some']
        | succ i =>
          simp only [List.getElem?_cons_succ] at hi
          simp only [ScenarioReader.nthJob, h0]
          exact ih s1 s2 js1 h1 i j hi

theorem nextJobs_ids {R : RandSource} : ∀ (n : Nat) (s s' : ScenarioReader R) (js : List Job),
    s.nextJobs n = some (js, s') → ∀ i j, js[i]? = some j →
    j.Timeout = j.Payload.CycleTime + 5 ∧
    (s.maxId + i + 1 < UINT_MOD → j.Payload.Id = s.maxId + i + 1) := by
  intro n
  induction n with
  | zero =>
    intro s s' js h i j hi
    simp only [ScenarioReader.nextJobs, Option.some.injEq, Prod.mk.injEq] at h
    rw [← h.1] at hi
    simp at hi
  | succ n ih =>
    intro s s' js h i j hi
    unfold ScenarioReader.nextJobs at h
    split at h
    · exact absurd h (by simp)
    · rename_i j0 s1 h0
      split at h
      · exact absurd h (by simp)
      · rename_i js1 s2 h1
        injection h with h
        injection h with hjs _
        subst hjs
        obtain ⟨f1, f2, _, f4⟩ := NextJob_facts s s1 j0 h0
        cases i with
        | zero =>
          simp only [List.getElem?_cons_zero, Option.some.injEq] at hi
          subst hi
          refine ⟨f4, fun hb => ?_⟩
          rw [f1]
          unfold uaddw
          exact Nat.mod_eq_of_lt (by omega)
        | succ i =>
          simp only [List.getElem?_cons_succ] at hi
          obtain ⟨g1, g2⟩ := ih s1 s2 js1 h1 i j hi
          refine ⟨g1, fun hb => ?_⟩
          have hm : s1.maxId = s.maxId + 1 := by
            rw [f2]
            unfold uaddw
            exact Nat.mod_eq_of_lt (by omega)
          rw [g2 (by omega), hm]
          omega

theorem nextJobs_ok {R : RandSource} : ∀ (n : Nat) (s : ScenarioReader R), s.scenario.drawsOk →
    ∃ js s', s.nextJobs n = some (js, s') ∧ js.length = n := by
  intro n
  induction n with
  | zero => intro s _; exact ⟨[], s, rfl, rfl⟩
  | succ n ih =>
    intro s h
    obtain ⟨j, s1, h1⟩ := NextJob_ok s h
    obtain ⟨_, _, f3, _⟩ := NextJob_facts s s1 j h1
    obtain ⟨js, s2, h2, h3⟩ := ih s1 (by rw [f3]; exact h)
    refine ⟨j :: js, s2, ?_, by simp [h3]⟩
    simp only [ScenarioReader.nextJobs, h1, h2]

theorem runTwo_nextJobs {R : RandSource} : ∀ (sched : List Bool) (a b : ScenarioReader R)
    (ja jb : List Job), runTwo sched a b = some (ja, jb) →
    ∃ a1 b1, a.nextJobs (sched.count true) = some (ja, a1) ∧
      b.nextJobs (sched.count false) = some (jb, b1) := by
  intro sched
  induction sched with
  | nil =>
    intro a b ja jb h
    simp only [runTwo, Option.some.injEq, Prod.mk.injEq] at h
    obtain ⟨rfl, rfl⟩ := h
    exact ⟨a, b, rfl, rfl⟩
  | cons x sched ih =>
    intro a b ja jb h
    cases x with
    | true =>
      unfold runTwo at h
      split at h
      · exact absurd h (by simp)
      · rename_i j a1 h0
        split at h
        · exact absurd h (by simp)
        · rename_i ja1 jb1 h1
          injection h with h
          injection h with hja hjb
          subst hja hjb
          obtain ⟨a2, b2, g1, g2⟩ := ih a1 b ja1 jb1 h1
          refine ⟨a2, b2, ?_, ?_⟩
          · simp only [List.count_cons_self, ScenarioReader.nextJobs, h0, g1]
          · simpa using g2
    | false =>
      unfold runTwo at h
      split at h
      · exact absurd h (by simp)
      · rename_i j b1 h0
        split at h
        · exact absurd h (by simp)
        · rename_i ja1 jb1 h1
          injection h with h
          injection h with hja hjb
          subst hja hjb
          obtain ⟨a2, b2, g1, g2⟩ := ih a b1 ja1 jb1 h1
          refine ⟨a2, b2, ?_, ?_⟩
          · simpa using g1
          · simp only [List.count_cons_self, ScenarioReader.nextJobs, h0, g2]

theorem runTwo_ok {R : RandSource} : ∀ (sched : List Bool) (a b : ScenarioReader R),
    a.scenario.drawsOk → b.scenario.drawsOk →
    ∃ ja jb, runTwo sched a b = some (ja, jb) ∧ ja.length = sched.count true ∧
      jb.length = sched.count false := by
  intro sched
  induction sched with
  | nil => intro a b _ _; exact ⟨[], [], rfl, rfl, rfl⟩
  | cons x sched ih =>
    intro a b ha hb
    cases x with
    | true =>
      obtain ⟨j, a1, h1⟩ := NextJob_ok a ha
      obtain ⟨_, _, f3, _⟩ := NextJob_facts a a1 j h1
      obtain ⟨ja, jb, h2, h3, h4⟩ := ih a1 b (by rw [f3]; exact ha) hb
      refine ⟨j :: ja, jb, ?_, by simp [h3], by simpa using h4⟩
      simp only [runTwo, h1, h2]
    | false =>
      obtain ⟨j, b1, h1⟩ := NextJob_ok b hb
      obtain ⟨_, _, f3, _⟩ := NextJob_facts b b1 j h1
      obtain ⟨ja, jb, h2, h3, h4⟩ := ih a b1 ha (by rw [f3]; exact hb)
      refine ⟨ja, j :: jb, ?_, by simpa using h3, by simp [h4]⟩
      simp only [runTwo, h1, h2]

/-- C7: two readers created by `NewScenario` with the same seed and Scenario and driven by
any schedule of `NextJob` calls return the same jobs, field by field, at equal positions of
their own call sequences; the `i`-th job of a reader (ids start at 1, `i < 2^64`) has
`Payload.Id = i` and every job has `Timeout = CycleTime + 5`.  The calls do return jobs
whenever the draws of the Scenario have positive bounds. -/
theorem NewScenario_deterministic (R : RandSource) (seed : Int) (sc : Scenario)
    (sched : List Bool) :
    (sc.drawsOk → ∃ ja jb,
      runTwo sched (NewScenario R seed sc) (NewScenario R seed sc) = some (ja, jb) ∧
      ja.length = sched.count true ∧ jb.length = sched.count false) ∧
    ∀ (ja jb : List Job),
      runTwo sched (NewScenario R seed sc) (NewScenario R seed sc) = some (ja, jb) →
      (∀ (i : Nat) (j1 j2 : Job), ja[i]? = some j1 → jb[i]? = some j2 → j1 = j2) ∧
      (∀ (i : Nat) (j : Job), ja[i]? = some j ∨ jb[i]? = some j →
        j.Timeout = j.Payload.CycleTime + 5 ∧ (i + 1 < UINT_MOD → j.Payload.Id = i + 1)) := by
  refine ⟨fun h => runTwo_ok sched _ _ h h, ?_⟩
  intro ja jb h
  obtain ⟨a1, b1, g1, g2⟩ := runTwo_nextJobs sched _ _ ja jb h
  refine ⟨?_, ?_⟩
  · intro i j1 j2 h1 h2
    have e1 := nextJobs_nth _ _ _ _ g1 i j1 h1
    have e2 := nextJobs_nth _ _ _ _ g2 i j2 h2
    rw [e1] at e2
    exact Option.some.inj e2
  · intro i j hj
    rcases hj with hj | hj
    · have := nextJobs_ids _ _ _ _ g1 i j hj
      simpa [NewScenario] using this
    · have := nextJobs_ids _ _ _ _ g2 i j hj
      simpa [NewScenario] using this

theorem NewScenario_deterministic_witness :
    exampleScenario.drawsOk ∧
    ∃ ja jb, runTwo [true, false, false, true] (NewScenario lcg 3141592 exampleScenario)
        (NewScenario lcg 3141592 exampleScenario) = some (ja, jb) ∧
      ja.length = [true, false, false, true].count true ∧
      jb.length = [true, false, false, true].count false :=
  ⟨by decide,
   (NewScenario_deterministic lcg 3141592 exampleScenario [true, false, false, true]).1
     (by decide)⟩

/-! ### The optimizer -/

theorem optimizeLoop_improving (scores : Nat → Nat → F64) : ∀ (fuel k : Nat) (st : OptState),
    F64.lt st.bestScore (levelScore (scores k)) = true →
    (∀ i, i + 1 < fuel →
      F64.lt (levelScore (scores (k + i))) (levelScore (scores (k + i + 1))) = true) →
    optimizeLoop scores fuel k st = none := by
  intro fuel
  induction fuel with
  | zero => intro k st _ _; rfl
  | succ fuel ih =>
    intro k st h0 h
    have hstop : (optimizeIter st (levelScore (scores k))).2 = false := by
      simp only [optimizeIter, h0, if_true]
      decide
    have hbest : (optimizeIter st (levelScore (scores k))).1.bestScore = levelScore (scores k) := by
      simp only [optimizeIter, h0, if_true]
    unfold optimizeLoop
    rw [hstop]
    simp only [Bool.false_eq_true, if_false]
    cases fuel with
    | zero => rfl
    | succ fuel =>
      refine ih (k + 1) _ ?_ ?_
      · have := h 0 (by omega)
        simp only [hbest]
        exact this
      · intro i hi
        have := h (i + 1) (by omega)
        have e1 : k + (i + 1) = k + 1 + i := by omega
        rw [e1] at this
        exact this

theorem optimizeLoop_no_positive (scores : Nat → Nat → F64)
    (h : ∀ k, F64.lt (F64.fin false 0 0) (levelScore (scores k)) = false) :
    ∀ (fuel k : Nat) (st : OptState) (r : Scenario),
    st.max = Scenario.zero → st.bestScore = F64.fin false 0 0 →
    optimizeLoop scores fuel k st = some r → r = Scenario.zero := by
  intro fuel
  induction fuel with
  | zero => intro k st r _ _ hr; exact absurd hr (by simp [optimizeLoop])
  | succ fuel ih =>
    intro k st r hmax hbest hr
    have h0 := h k
    rw [← hbest] at h0
    have e1 : (optimizeIter st (levelScore (scores k))).1.max = Scenario.zero := by
      simp only [optimizeIter, h0, Bool.false_eq_true, if_false]
      exact hmax
    have e2 : (optimizeIter st (levelScore (scores k))).1.bestScore = F64.fin false 0 0 := by
      simp only [optimizeIter, h0, Bool.false_eq_true, if_false]
      exact hbest
    unfold optimizeLoop at hr
    split_ifs at hr with hs
    · rw [e1] at hr
      exact (Option.some.inj hr).symm
    · exact ih _ _ r (by exact e1) (by exact e2) hr

/-- C8 on the code: with level averages 10, 20, 30, … every level after the first stays
below the running best plus epsilon (50), yet `optimize` is still running after 4 levels
(3 levels after the first) and after 60 levels: each improvement resets `notGrowing`. -/
theorem optimize_slow_growth_keeps_running :
    levelScore (slowGrowth 0) = F64.ofNat 10 ∧ levelScore (slowGrowth 1) = F64.ofNat 20 ∧
    levelScore (slowGrowth 2) = F64.ofNat 30 ∧ levelScore (slowGrowth 3) = F64.ofNat 40 ∧
    F64.lt (levelScore (slowGrowth 1)) (F64.add (levelScore (slowGrowth 0)) epsilon) = true ∧
    F64.lt (levelScore (slowGrowth 2)) (F64.add (levelScore (slowGrowth 1)) epsilon) = true ∧
    F64.lt (levelScore (slowGrowth 3)) (F64.add (levelScore (slowGrowth 2)) epsilon) = true ∧
    optimize slowGrowth 4 mainScenario = none ∧
    optimize slowGrowth 60 mainScenario = none := by
  refine ⟨?_, ?_, ?_, ?_, ?_, ?_, ?_, ?_, ?_⟩ <;> decide!

/-- C9 on the code: when every trial scores `-1`, `optimize` stops after 3 levels and
returns the zero-valued Scenario (empty queue name, `JobConcurrency = 0`), not the snapshot
of a level that was run. -/
theorem optimize_all_negative_returns_zero :
    levelScore (allNegative 0) = F64.ofInt (-1) ∧
    optimizeLevels allNegative 3 0 (optimizeInit mainScenario) = some 3 ∧
    optimize allNegative 3 mainScenario = some Scenario.zero ∧
    Scenario.zero.JobConcurrency = 0 ∧ Scenario.zero.QueueName = "" := by
  refine ⟨?_, ?_, ?_, rfl, rfl⟩ <;> decide!

end Benchworker
